/-
Verification of the chain-reaction puzzle engine (ArrowDomainGame).

Shallow embedding notes:
* JavaScript numbers are modelled as `Int` (coordinates, sizes) and `ℚ`
  (the rng samples and chance thresholds); the rng closure `() => number`
  is modelled as a stream `Nat → ℚ` that is consumed from the front and
  threaded through every function that draws from it.
* JS `Map`s are modelled as association lists with the same observable
  behaviour: first-insertion iteration order, `set` updating in place,
  `delete` removing the unique entry.  JS `Set`s are duplicate-free lists
  in insertion order.  The string key `row:col` built by `coordKey` is
  injective on integer pairs, so it is modelled directly as the pair.
* The source's unbounded `while` loops are written with an explicit fuel
  argument and return `none` on exhaustion; the wrappers instantiate the
  fuel with a bound that is proved sufficient (see the termination
  theorems), so the `none` branches of the wrappers are dead code.
* JS truthiness in `if (hitId)` and `if (cast.toId)` is modelled
  faithfully: the empty string is falsy.
-/
import Mathlib

namespace ArrowDomain

/-! ## Association lists: the observable behaviour of JS `Map` / `Set` -/

abbrev AList (κ ν : Type) := List (κ × ν)

def alGet {κ ν : Type} [DecidableEq κ] : AList κ ν → κ → Option ν
  | [], _ => none
  | (k, v) :: rest, key => if k = key then some v else alGet rest key

def alHas {κ ν : Type} [DecidableEq κ] (m : AList κ ν) (key : κ) : Bool :=
  (alGet m key).isSome

def alSet {κ ν : Type} [DecidableEq κ] : AList κ ν → κ → ν → AList κ ν
  | [], key, v => [(key, v)]
  | (k, w) :: rest, key, v =>
    if k = key then (k, v) :: rest else (k, w) :: alSet rest key v

def alErase {κ ν : Type} [DecidableEq κ] : AList κ ν → κ → AList κ ν
  | [], _ => []
  | (k, v) :: rest, key => if k = key then rest else (k, v) :: alErase rest key

def alFromPairs {κ ν : Type} [DecidableEq κ] (l : List (κ × ν)) : AList κ ν :=
  l.foldl (fun m kv => alSet m kv.1 kv.2) []

def alKeys {κ ν : Type} (m : AList κ ν) : List κ := m.map (fun kv => kv.1)

def memB {α : Type} [DecidableEq α] (a : α) : List α → Bool
  | [] => false
  | b :: rest => if b = a then true else memB a rest

def addSet {α : Type} [DecidableEq α] (s : List α) (a : α) : List α :=
  if memB a s then s else s ++ [a]

def eraseSet {α : Type} [DecidableEq α] : List α → α → List α
  | [], _ => []
  | b :: rest, a => if b = a then rest else b :: eraseSet rest a

/-! ## Random helpers (`createSeededRandom` consumers) -/

abbrev Rng := Nat → ℚ

def rngNext (g : Rng) : ℚ × Rng := (g 0, fun j => g (j + 1))

def randomInt (g : Rng) (mn mx : Int) : Int × Rng :=
  let step := rngNext g
  (mn + Int.floor (step.1 * ((mx - mn + 1 : Int) : ℚ)), step.2)

def chooseRandom {α : Type} [Inhabited α] (values : List α) (g : Rng) : α × Rng :=
  let pick := randomInt g 0 ((values.length : Int) - 1)
  (values.getD pick.1.toNat default, pick.2)

def swapAt {α : Type} (l : List α) (i j : Nat) : List α :=
  match l.get? i, l.get? j with
  | some a, some b => (l.set i b).set j a
  | _, _ => l

def shuffleGo {α : Type} : List α → Rng → List Nat → List α × Rng
  | values, g, [] => (values, g)
  | values, g, index :: rest =>
    let pick := randomInt g 0 (index : Int)
    shuffleGo (swapAt values index pick.1.toNat) pick.2 rest

def shuffle {α : Type} (items : List α) (g : Rng) : List α × Rng :=
  shuffleGo items g (((List.range items.length).drop 1).reverse)

/-! ## Directions and geometry -/

inductive ArrowDir
  | N | NE | E | SE | S | SW | W | NW
deriving DecidableEq, Inhabited

def ALL_DIRECTIONS : List ArrowDir :=
  [.N, .NE, .E, .SE, .S, .SW, .W, .NW]

def DIR_VECTORS : ArrowDir → Int × Int
  | .N => (-1, 0)
  | .NE => (-1, 1)
  | .E => (0, 1)
  | .SE => (1, 1)
  | .S => (1, 0)
  | .SW => (1, -1)
  | .W => (0, -1)
  | .NW => (-1, -1)

def DELTA_TO_DIR : AList (Int × Int) ArrowDir :=
  alFromPairs (ALL_DIRECTIONS.map (fun d => (DIR_VECTORS d, d)))

def coordKey (row col : Int) : Int × Int := (row, col)

def inBounds (row col rows cols : Int) : Bool :=
  decide (0 ≤ row) && decide (row < rows) && decide (0 ≤ col) && decide (col < cols)

structure Point where
  row : Int
  col : Int
deriving DecidableEq, Inhabited

structure NeighborEntry where
  dir : ArrowDir
  row : Int
  col : Int
  key : Int × Int
deriving DecidableEq, Inhabited

def getNeighborEntries (row col rows cols : Int) : List NeighborEntry :=
  (ALL_DIRECTIONS.map (fun d =>
    { dir := d
      row := row + (DIR_VECTORS d).1
      col := col + (DIR_VECTORS d).2
      key := coordKey (row + (DIR_VECTORS d).1) (col + (DIR_VECTORS d).2) })).filter
    (fun next => inBounds next.row next.col rows cols)

def directionBetween (f t : Point) : Option ArrowDir :=
  alGet DELTA_TO_DIR (t.row - f.row, t.col - f.col)

def intRange (n : Int) : List Int :=
  (List.range n.toNat).map (fun k => Int.ofNat k)

def buildAllPoints (rows cols : Int) : List Point :=
  (intRange rows).flatMap (fun row => (intRange cols).map (fun col => ⟨row, col⟩))

/-! ## Core data model -/

structure ArrowBlock where
  id : String
  row : Int
  col : Int
  dirs : List ArrowDir
deriving DecidableEq, Inhabited

structure DirectionCast where
  dir : ArrowDir
  toId : Option String
  rayCells : List (Int × Int)
deriving DecidableEq

structure WaveSource where
  fromId : String
  casts : List DirectionCast
deriving DecidableEq

structure AttemptWave where
  sources : List WaveSource
deriving DecidableEq

structure AttemptResult where
  waves : List AttemptWave
  success : Bool
deriving DecidableEq

/-! ## `castNearest` -/

def castRay (byCoord : AList (Int × Int) String) (rows cols dr dc : Int) :
    Int → Int → Nat → Option (Option String × List (Int × Int))
  | _, _, 0 => none
  | row, col, fuel + 1 =>
    if inBounds row col rows cols then
      match alGet byCoord (coordKey row col) with
      | some hitId =>
        if hitId = "" then
          (castRay byCoord rows cols dr dc (row + dr) (col + dc) fuel).map
            (fun pr => (pr.1, (row, col) :: pr.2))
        else some (some hitId, [(row, col)])
      | none =>
        (castRay byCoord rows cols dr dc (row + dr) (col + dc) fuel).map
          (fun pr => (pr.1, (row, col) :: pr.2))
    else some (none, [])

def castNearestO (block : ArrowBlock) (dir : ArrowDir)
    (byCoord : AList (Int × Int) String) (rows cols : Int) : Option DirectionCast :=
  (castRay byCoord rows cols (DIR_VECTORS dir).1 (DIR_VECTORS dir).2
      (block.row + (DIR_VECTORS dir).1) (block.col + (DIR_VECTORS dir).2)
      (rows.toNat + cols.toNat + 1)).map
    (fun pr => { dir := dir, toId := pr.1, rayCells := pr.2 })

def castNearest (block : ArrowBlock) (dir : ArrowDir)
    (byCoord : AList (Int × Int) String) (rows cols : Int) : DirectionCast :=
  (castNearestO block dir byCoord rows cols).getD
    { dir := dir, toId := none, rayCells := [] }

/-! ## `simulateAttempt` -/

def simulateLoopO (layoutById : AList String ArrowBlock) (aliveById : AList String ArrowBlock)
    (byCoord : AList (Int × Int) String) (frontier : List String)
    (rows cols : Int) : Nat → Option (List AttemptWave × Bool)
  | 0 => none
  | fuel + 1 =>
    if frontier.isEmpty then some ([], aliveById.length == 0)
    else
      let currentWaveIds := frontier.filter (fun id => alHas aliveById id)
      if currentWaveIds.isEmpty then some ([], aliveById.length == 0)
      else
        let removedState := currentWaveIds.foldl
          (fun st id =>
            match alGet st.1 id with
            | none => st
            | some block => (alErase st.1 id, alErase st.2 (coordKey block.row block.col)))
          (aliveById, byCoord)
        let sources := currentWaveIds.filterMap
          (fun id => (alGet layoutById id).map
            (fun block =>
              { fromId := id
                casts := block.dirs.map
                  (fun d => castNearest block d removedState.2 rows cols) : WaveSource }))
        let nextFrontier := sources.foldl
          (fun acc source => source.casts.foldl
            (fun acc2 cast =>
              match cast.toId with
              | some t => if t = "" then acc2 else if alHas removedState.1 t then addSet acc2 t else acc2
              | none => acc2)
            acc)
          []
        (simulateLoopO layoutById removedState.1 removedState.2 nextFrontier rows cols fuel).map
          (fun rest => ({ sources := sources } :: rest.1, rest.2))

def simulateAttempt (blocks : List ArrowBlock) (startId : String) (rows cols : Int) :
    AttemptResult :=
  let layoutById := alFromPairs (blocks.map (fun b => (b.id, b)))
  let aliveById := alFromPairs (blocks.map (fun b => (b.id, b)))
  let byCoord := alFromPairs (blocks.map (fun b => (coordKey b.row b.col, b.id)))
  match simulateLoopO layoutById aliveById byCoord [startId] rows cols (aliveById.length + 1) with
  | some r => { waves := r.1, success := r.2 }
  | none => { waves := [], success := false }

/-! ## `collectWinningStarts` -/

def TARGET_MAX_WINNERS : Nat := 2

def WINNER_SCAN_STOP : Nat := TARGET_MAX_WINNERS + 1

def GENERATE_RETRIES : Nat := 220

def collectGo (blocks : List ArrowBlock) (rows cols : Int) (stopAfter : Nat) :
    List ArrowBlock → List String → List String
  | [], winners => winners
  | b :: rest, winners =>
    if (simulateAttempt blocks b.id rows cols).success then
      let winners1 := winners ++ [b.id]
      if stopAfter ≤ winners1.length then winners1
      else collectGo blocks rows cols stopAfter rest winners1
    else collectGo blocks rows cols stopAfter rest winners

def collectWinningStarts (blocks : List ArrowBlock) (rows cols : Int) (stopAfter : Nat) :
    List String :=
  collectGo blocks rows cols stopAfter blocks []

/-! ## `buildRandomGrowthTree` -/

structure GrowthTree where
  root : Point
  childrenByKey : AList (Int × Int) (List Point)
deriving DecidableEq, Inhabited

structure TreeBuildState where
  pointByKey : AList (Int × Int) Point
  childrenByKey : AList (Int × Int) (List Point)
  inTree : List (Int × Int)
  unassigned : List (Int × Int)
  outCount : AList (Int × Int) Int
deriving DecidableEq

def expandableFilter (st : TreeBuildState) (rows cols maxDirs : Int) (key : Int × Int) :
    Bool :=
  if maxDirs ≤ (alGet st.outCount key).getD 0 then false
  else
    match alGet st.pointByKey key with
    | none => false
    | some point =>
      (getNeighborEntries point.row point.col rows cols).any
        (fun neighbor => memB neighbor.key st.unassigned)

def buildTreeGo (rows cols maxDirs : Int) :
    TreeBuildState → Point → Rng → Nat → Option (Option GrowthTree × Rng)
  | _, _, _, 0 => none
  | st, root, g, fuel + 1 =>
    if st.unassigned.isEmpty then
      some (some { root := root, childrenByKey := st.childrenByKey }, g)
    else
      let expandableParents := st.inTree.filter (expandableFilter st rows cols maxDirs)
      if expandableParents.isEmpty then some (none, g)
      else
        let pickParent := chooseRandom expandableParents g
        match alGet st.pointByKey pickParent.1 with
        | none => some (none, pickParent.2)
        | some parent =>
          let nextCandidates := (getNeighborEntries parent.row parent.col rows cols).filter
            (fun neighbor => memB neighbor.key st.unassigned)
          if nextCandidates.isEmpty then buildTreeGo rows cols maxDirs st root pickParent.2 fuel
          else
            let pickChild := chooseRandom nextCandidates pickParent.2
            match alGet st.pointByKey pickChild.1.key with
            | none => some (none, pickChild.2)
            | some child =>
              let oc1 := alSet st.outCount pickParent.1 ((alGet st.outCount pickParent.1).getD 0 + 1)
              let st1 : TreeBuildState :=
                { pointByKey := st.pointByKey
                  childrenByKey :=
                    match alGet st.childrenByKey pickParent.1 with
                    | none => st.childrenByKey
                    | some siblings => alSet st.childrenByKey pickParent.1 (siblings ++ [child])
                  inTree := addSet st.inTree pickChild.1.key
                  unassigned := eraseSet st.unassigned pickChild.1.key
                  outCount := alSet oc1 pickChild.1.key ((alGet oc1 pickChild.1.key).getD 0) }
              buildTreeGo rows cols maxDirs st1 root pickChild.2 fuel

def buildRandomGrowthTreeO (rows cols maxDirs : Int) (g : Rng) :
    Option (Option GrowthTree × Rng) :=
  let allPoints := buildAllPoints rows cols
  if allPoints.isEmpty then some (none, g)
  else
    let pickRoot := chooseRandom allPoints g
    let root := pickRoot.1
    let rootKey := coordKey root.row root.col
    let pointByKey := alFromPairs (allPoints.map (fun p => (coordKey p.row p.col, p)))
    let st : TreeBuildState :=
      { pointByKey := pointByKey
        childrenByKey := alFromPairs (allPoints.map (fun p => (coordKey p.row p.col, ([] : List Point))))
        inTree := [rootKey]
        unassigned := eraseSet (alKeys pointByKey) rootKey
        outCount := [(rootKey, 0)] }
    buildTreeGo rows cols maxDirs st root pickRoot.2 (rows.toNat * cols.toNat + 1)

def buildRandomGrowthTree (rows cols maxDirs : Int) (g : Rng) : Option GrowthTree × Rng :=
  (buildRandomGrowthTreeO rows cols maxDirs g).getD (none, g)

/-! ## `createSparseBlocksFromTree` -/

structure DifficultyConfig where
  rows : Int
  cols : Int
  maxDirs : Int
  extraDirChance : ℚ
  leafDecoyChance : ℚ
deriving DecidableEq

def idOf (serial : Nat) (row col : Int) : String :=
  "arrow-" ++ toString serial ++ "-" ++ toString row ++ "-" ++ toString col

def buildCellDirsBase (tree : GrowthTree) (config : DifficultyConfig) (row col : Int)
    (g : Rng) : List ArrowDir × Rng :=
  let point : Point := ⟨row, col⟩
  let children := (alGet tree.childrenByKey (coordKey row col)).getD []
  let dirs0 := children.foldl
    (fun ds child =>
      match directionBetween point child with
      | some d => addSet ds d
      | none => ds)
    []
  let step1 : List ArrowDir × Rng :=
    if (dirs0.length : Int) < config.maxDirs then
      let draw := rngNext g
      if draw.1 < config.extraDirChance then
        let extraCandidates :=
          ((getNeighborEntries row col config.rows config.cols).map (fun e => e.dir)).filter
            (fun d => !(memB d dirs0))
        if extraCandidates.isEmpty then (dirs0, draw.2)
        else
          let pick := chooseRandom extraCandidates draw.2
          (addSet dirs0 pick.1, pick.2)
      else (dirs0, draw.2)
    else (dirs0, g)
  if step1.1.isEmpty then
    let draw := rngNext step1.2
    if draw.1 < config.leafDecoyChance then
      let neighbors := (getNeighborEntries row col config.rows config.cols).map (fun e => e.dir)
      if neighbors.isEmpty then (step1.1, draw.2)
      else
        let pick := chooseRandom neighbors draw.2
        (addSet step1.1 pick.1, pick.2)
    else (step1.1, draw.2)
  else step1

def buildCellDirs (tree : GrowthTree) (config : DifficultyConfig) (row col : Int) (g : Rng) :
    List ArrowDir × Rng :=
  let step2 := buildCellDirsBase tree config row col g
  if step2.1.isEmpty then
    let neighbors := (getNeighborEntries row col config.rows config.cols).map (fun e => e.dir)
    if neighbors.isEmpty then step2
    else
      let pick := chooseRandom neighbors step2.2
      (addSet step2.1 pick.1, pick.2)
  else step2

def createSparseBlocksFromTree (tree : GrowthTree) (serial : Nat) (config : DifficultyConfig)
    (g : Rng) : List ArrowBlock × Rng :=
  (intRange config.rows).foldl
    (fun acc row =>
      (intRange config.cols).foldl
        (fun acc2 col =>
          let cell := buildCellDirs tree config row col acc2.2
          let shuffled := shuffle cell.1 cell.2
          (acc2.1 ++
              [{ id := idOf serial row col, row := row, col := col, dirs := shuffled.1 }],
            shuffled.2))
        acc)
    ([], g)

/-! ## `createPuzzle` -/

inductive DifficultyId
  | easy | normal | hard | expert | master
deriving DecidableEq

def DIFFICULTY_CONFIGS : DifficultyId → DifficultyConfig
  | .easy => { rows := 5, cols := 5, maxDirs := 2, extraDirChance := 0.12, leafDecoyChance := 0.84 }
  | .normal => { rows := 6, cols := 6, maxDirs := 2, extraDirChance := 0.14, leafDecoyChance := 0.8 }
  | .hard => { rows := 7, cols := 7, maxDirs := 2, extraDirChance := 0.16, leafDecoyChance := 0.76 }
  | .expert => { rows := 8, cols := 8, maxDirs := 2, extraDirChance := 0.18, leafDecoyChance := 0.72 }
  | .master => { rows := 9, cols := 9, maxDirs := 2, extraDirChance := 0.2, leafDecoyChance := 0.68 }

structure PuzzleState where
  serial : Nat
  difficulty : DifficultyId
  rows : Int
  cols : Int
  initialBlocks : List ArrowBlock
  solutionStartId : String

structure FallbackInfo where
  blocks : List ArrowBlock
  solutionStartId : String
  winnerCount : Nat

/-- The four return sites of `createPuzzle`, used to instrument which path
produced the result: acceptance inside the retry loop, the retained
fallback after the loop, the degraded emergency regeneration, and the
trivial last-resort layout. -/
inductive RetPath
  | accepted | fallbackPath | emergency | lastResort
deriving DecidableEq

def afterLoop (difficulty : DifficultyId) (serial : Nat) (config : DifficultyConfig)
    (fallback : Option FallbackInfo) : PuzzleState × RetPath :=
  match fallback with
  | some fb =>
    ({ serial := serial, difficulty := difficulty, rows := config.rows, cols := config.cols,
        initialBlocks := fb.blocks, solutionStartId := fb.solutionStartId }, .fallbackPath)
  | none =>
    match (buildRandomGrowthTree config.rows config.cols 1 (fun _ => 0.5)).1 with
    | some emergencyTree =>
      let emergencyConfig : DifficultyConfig :=
        { config with maxDirs := 1, extraDirChance := 0, leafDecoyChance := 0.5 }
      let emergencyBlocks :=
        (createSparseBlocksFromTree emergencyTree serial emergencyConfig (fun _ => 0.7)).1
      ({ serial := serial, difficulty := difficulty, rows := config.rows, cols := config.cols,
          initialBlocks := emergencyBlocks,
          solutionStartId := idOf serial emergencyTree.root.row emergencyTree.root.col },
        .emergency)
    | none =>
      let basicBlocks := (buildAllPoints config.rows config.cols).map
        (fun p =>
          { id := idOf serial p.row p.col, row := p.row, col := p.col,
            dirs := [(chooseRandom
                ((getNeighborEntries p.row p.col config.rows config.cols).map (fun e => e.dir))
                (fun _ => 0.5)).1] : ArrowBlock })
      ({ serial := serial, difficulty := difficulty, rows := config.rows, cols := config.cols,
          initialBlocks := basicBlocks,
          solutionStartId := (basicBlocks.headD default).id }, .lastResort)

def createPuzzleGo (difficulty : DifficultyId) (serial : Nat) (config : DifficultyConfig) :
    Nat → Option FallbackInfo → Rng → PuzzleState × RetPath
  | 0, fallback, _ => afterLoop difficulty serial config fallback
  | n + 1, fallback, g =>
    let built := buildRandomGrowthTree config.rows config.cols config.maxDirs g
    match built.1 with
    | none => createPuzzleGo difficulty serial config n fallback built.2
    | some tree =>
      let made := createSparseBlocksFromTree tree serial config built.2
      let blocks := made.1
      let solutionStartId := idOf serial tree.root.row tree.root.col
      let rootValidation := simulateAttempt blocks solutionStartId config.rows config.cols
      if rootValidation.success then
        let winners := collectWinningStarts blocks config.rows config.cols WINNER_SCAN_STOP
        let winnerCount := winners.length
        let fallback1 :=
          match fallback with
          | none =>
            some { blocks := blocks, solutionStartId := solutionStartId,
                   winnerCount := winnerCount }
          | some fb =>
            if winnerCount < fb.winnerCount then
              some { blocks := blocks, solutionStartId := solutionStartId,
                     winnerCount := winnerCount }
            else fallback
        if winnerCount ≤ TARGET_MAX_WINNERS then
          ({ serial := serial, difficulty := difficulty, rows := config.rows, cols := config.cols,
              initialBlocks := blocks, solutionStartId := solutionStartId }, .accepted)
        else createPuzzleGo difficulty serial config n fallback1 made.2
      else createPuzzleGo difficulty serial config n fallback made.2

def createPuzzleEx (difficulty : DifficultyId) (g : Rng) (serial : Nat) :
    PuzzleState × RetPath :=
  createPuzzleGo difficulty serial (DIFFICULTY_CONFIGS difficulty) GENERATE_RETRIES none g

def createPuzzle (difficulty : DifficultyId) (g : Rng) (serial : Nat) : PuzzleState :=
  (createPuzzleEx difficulty g serial).1

/-! ## Session state machine (synchronous prefix of `playAttempt`)

The asynchronous playback that follows the state updates is real-time
animation pacing and is not part of the engine contracts modelled here;
`playAttemptSync` is the synchronous prefix of `playAttempt` up to and
including the state updates that precede the playback task. -/

inductive GamePhase
  | idle | animating | resolved
deriving DecidableEq

inductive ResolveResult
  | success | fail
deriving DecidableEq

structure RayVisual where
  id : String
  fromX : ℚ
  fromY : ℚ
  toX : ℚ
  toY : ℚ
  hit : Bool
deriving DecidableEq

structure SessionState where
  puzzle : PuzzleState
  blocks : List ArrowBlock
  attempts : Nat
  phase : GamePhase
  resolveResult : Option ResolveResult
  activeBlockIds : List String
  hitBlockIds : List String
  rayVisuals : List RayVisual
  showSuccessModal : Bool
  hintStartId : Option String
  animationRun : Nat

def controlsLocked (s : SessionState) : Bool := s.phase = GamePhase.animating

def playAttemptSync (s : SessionState) (startId : String) : SessionState :=
  if controlsLocked s || s.blocks.length == 0 then s
  else if !(s.blocks.any (fun block => block.id == startId)) then s
  else
    let attempt := simulateAttempt s.blocks startId s.puzzle.rows s.puzzle.cols
    if attempt.waves.length == 0 then s
    else
      { s with
        animationRun := s.animationRun + 1
        attempts := s.attempts + 1
        showSuccessModal := false
        resolveResult := none
        hintStartId := none
        phase := GamePhase.animating
        activeBlockIds := []
        hitBlockIds := []
        rayVisuals := [] }

/-! ## Heap-threading variant of `simulateAttempt`

`simulateAttemptH` is the same translation of `simulateAttempt`, with the
`blocks` array of the caller modelled as an explicit store that every
iteration of the wave loop receives and returns.  The source never writes
to the array (it only reads it through `.map` when building the three
local maps), which in this translation shows up as the store being passed
through unchanged; the frame theorem below makes that observation formal. -/

def simulateLoopH (layoutById : AList String ArrowBlock) (aliveById : AList String ArrowBlock)
    (byCoord : AList (Int × Int) String) (frontier : List String)
    (rows cols : Int) : Nat → List ArrowBlock → Option (List AttemptWave × Bool) × List ArrowBlock
  | 0, store => (none, store)
  | fuel + 1, store =>
    if frontier.isEmpty then (some ([], aliveById.length == 0), store)
    else
      let currentWaveIds := frontier.filter (fun id => alHas aliveById id)
      if currentWaveIds.isEmpty then (some ([], aliveById.length == 0), store)
      else
        let removedState := currentWaveIds.foldl
          (fun st id =>
            match alGet st.1 id with
            | none => st
            | some block => (alErase st.1 id, alErase st.2 (coordKey block.row block.col)))
          (aliveById, byCoord)
        let sources := currentWaveIds.filterMap
          (fun id => (alGet layoutById id).map
            (fun block =>
              { fromId := id
                casts := block.dirs.map
                  (fun d => castNearest block d removedState.2 rows cols) : WaveSource }))
        let nextFrontier := sources.foldl
          (fun acc source => source.casts.foldl
            (fun acc2 cast =>
              match cast.toId with
              | some t => if t = "" then acc2 else if alHas removedState.1 t then addSet acc2 t else acc2
              | none => acc2)
            acc)
          []
        let recResult := simulateLoopH layoutById removedState.1 removedState.2 nextFrontier rows cols fuel store
        (recResult.1.map (fun rest => ({ sources := sources } :: rest.1, rest.2)), recResult.2)

def simulateAttemptH (blocks : List ArrowBlock) (startId : String) (rows cols : Int) :
    AttemptResult × List ArrowBlock :=
  let store := blocks
  let layoutById := alFromPairs (store.map (fun b => (b.id, b)))
  let aliveById := alFromPairs (store.map (fun b => (b.id, b)))
  let byCoord := alFromPairs (store.map (fun b => (coordKey b.row b.col, b.id)))
  match simulateLoopH layoutById aliveById byCoord [startId] rows cols (aliveById.length + 1) store with
  | (some r, store1) => ({ waves := r.1, success := r.2 }, store1)
  | (none, store1) => ({ waves := [], success := false }, store1)

/-! ## Helper notions used by the theorems -/

/-- The ids of the blocks that vanish in a wave. -/
def waveSourceIds (w : AttemptWave) : List String := w.sources.map (fun s => s.fromId)

/-- All source ids of the waves strictly before index `i`. -/
def removedBefore (waves : List AttemptWave) (i : Nat) : List String :=
  (waves.take i).flatMap waveSourceIds

/-- The coordinate index of a layout restricted to the blocks whose id is
not in `removed`: the state of `simulateAttempt`'s coordinate index after
the blocks in `removed` have been deleted. -/
def indexAfterRemoval (blocks : List ArrowBlock) (removed : List String) :
    AList (Int × Int) String :=
  alFromPairs ((blocks.filter (fun b => !(memB b.id removed))).map
    (fun b => (coordKey b.row b.col, b.id)))

/-- The alive map of a layout restricted to the blocks whose id is not in
`removed`. -/
def aliveAfterRemoval (blocks : List ArrowBlock) (removed : List String) :
    AList String ArrowBlock :=
  alFromPairs ((blocks.filter (fun b => !(memB b.id removed))).map (fun b => (b.id, b)))

/-- The blocks of a layout whose activation alone clears the whole board. -/
def winningBlocks (blocks : List ArrowBlock) (rows cols : Int) : List ArrowBlock :=
  blocks.filter (fun b => (simulateAttempt blocks b.id rows cols).success)

/-- The statement of claim C3, written from the claim's words: the ray
cells are exactly the consecutive cells stepped through from the block
along the direction vector, all in bounds; on a hit the last ray cell is
the first occupied one and carries `toId`; `toId` is null exactly when
the ray leaves the grid without meeting an occupied cell. -/
def castNearestSpec (block : ArrowBlock) (dir : ArrowDir)
    (byCoord : AList (Int × Int) String) (rows cols : Int) : Prop :=
  (castNearest block dir byCoord rows cols).rayCells =
    (List.range (castNearest block dir byCoord rows cols).rayCells.length).map
      (fun k : Nat => (block.row + (DIR_VECTORS dir).1 * ((k : Int) + 1),
        block.col + (DIR_VECTORS dir).2 * ((k : Int) + 1))) ∧
  (∀ pc ∈ (castNearest block dir byCoord rows cols).rayCells,
    inBounds pc.1 pc.2 rows cols = true) ∧
  (match (castNearest block dir byCoord rows cols).toId with
   | some t =>
      (castNearest block dir byCoord rows cols).rayCells ≠ [] ∧
      (∃ p, (castNearest block dir byCoord rows cols).rayCells.getLast? = some p ∧
        alGet byCoord p = some t) ∧
      (∀ pc ∈ (castNearest block dir byCoord rows cols).rayCells.dropLast,
        alGet byCoord pc = none)
   | none =>
      (∀ pc ∈ (castNearest block dir byCoord rows cols).rayCells,
        alGet byCoord pc = none) ∧
      (match (castNearest block dir byCoord rows cols).rayCells.getLast? with
       | some p => inBounds (p.1 + (DIR_VECTORS dir).1) (p.2 + (DIR_VECTORS dir).2) rows cols = false
       | none => inBounds (block.row + (DIR_VECTORS dir).1) (block.col + (DIR_VECTORS dir).2)
          rows cols = false))

/-- Stream left over after consuming `k` samples. -/
def advanceRng (g : Rng) (k : Nat) : Rng := fun j => g (j + k)

/-- A sequence of 39 rng samples, all in `[0, 1)`, on which
`buildRandomGrowthTree 5 5 2` dead-ends: the growth walk saturates the
out-degrees of every tree cell adjacent to one remaining unassigned cell. -/
def rngSeqList : List ℚ :=
  [16/25, 0, 1/8, 1/2, 6/7, 2/3, 6/7, 1/2, 5/6, 0, 1/7, 0, 2/5, 3/4, 1/3, 2/5, 3/5, 5/6,
   1/3, 3/7, 4/5, 4/7, 1/2, 1/3, 3/4, 0, 0, 0, 0, 0, 3/4, 0, 0, 0, 1/2, 1/5, 0, 1/3, 0]

/-- The periodic rng stream repeating `rngSeqList`: every generation
attempt of `createPuzzle` sees the same 39 samples and dead-ends the same
way, so the retry loop never stores a fallback. -/
def rngBad : Rng := fun j => rngSeqList.getD (j % 39) 0

/-- Validity of an rng stream: every sample is in `[0, 1)`, the contract
the spec states for the injectable rng. -/
def RngValid (g : Rng) : Prop := ∀ n, 0 ≤ g n ∧ g n < 1

/-- A two-block layout on a 1x2 board used to exercise the wave invariant
on a concrete input: "a" fires east into "b", "b" fires west into the
then-empty cell. -/
def c2Blocks : List ArrowBlock :=
  [⟨"a", 0, 0, [.E]⟩, ⟨"b", 0, 1, [.W]⟩]

/-! # Theorems -/

/-! ## Generic lemmas about the map and set models -/

theorem memB_iff_mem {α : Type} [DecidableEq α] (a : α) :
    ∀ s : List α, memB a s = true ↔ a ∈ s := by
  intro s
  induction s with
  | nil => simp [memB]
  | cons b rest ih =>
    rw [memB]
    by_cases h : b = a
    · subst h; simp
    · rw [if_neg h, ih, List.mem_cons]
      constructor
      · intro hm; exact Or.inr hm
      · intro hm
        cases hm with
        | inl he => exact absurd he.symm h
        | inr hm2 => exact hm2

theorem alGet_some_mem {κ ν : Type} [DecidableEq κ] :
    ∀ (m : AList κ ν) (k : κ) (v : ν), alGet m k = some v → (k, v) ∈ m := by
  intro m
  induction m with
  | nil => intro k v h; simp [alGet] at h
  | cons p rest ih =>
    intro k v h
    rw [alGet] at h
    by_cases hk : p.1 = k
    · rw [if_pos hk] at h
      have hv : p.2 = v := Option.some.inj h
      have hp : (k, v) = p := by rw [← hk, ← hv]
      rw [hp]
      exact List.mem_cons_self p rest
    · rw [if_neg hk] at h
      exact List.mem_cons_of_mem p (ih k v h)

theorem alGet_eq_none_iff {κ ν : Type} [DecidableEq κ] :
    ∀ (m : AList κ ν) (k : κ), alGet m k = none ↔ k ∉ alKeys m := by
  intro m
  induction m with
  | nil => intro k; simp [alGet, alKeys]
  | cons p rest ih =>
    intro k
    rw [alGet]
    by_cases hk : p.1 = k
    · rw [if_pos hk]
      simp only [alKeys, List.map_cons, List.mem_cons]
      constructor
      · intro h; cases h
      · intro h
        exact absurd (Or.inl hk.symm) h
    · rw [if_neg hk, ih]
      simp only [alKeys, List.map_cons, List.mem_cons]
      constructor
      · intro h hmem
        cases hmem with
        | inl he => exact hk he.symm
        | inr h2 => exact h h2
      · intro h h2
        exact h (Or.inr h2)

theorem eraseSet_length_of_mem {α : Type} [DecidableEq α] :
    ∀ (s : List α) (a : α), a ∈ s → (eraseSet s a).length + 1 = s.length := by
  intro s
  induction s with
  | nil => intro a h; cases h
  | cons b rest ih =>
    intro a h
    rw [eraseSet]
    by_cases hb : b = a
    · simp [hb]
    · have : a ∈ rest := by
        cases h with
        | head => exact absurd rfl hb
        | tail _ h2 => exact h2
      simp [hb, ih a this]

theorem addSet_ne_nil {α : Type} [DecidableEq α] (s : List α) (a : α) :
    addSet s a ≠ [] := by
  rw [addSet]
  by_cases h : memB a s = true
  · rw [if_pos h]
    intro hnil
    rw [hnil] at h
    simp [memB] at h
  · simp [h]

theorem swapAt_length {α : Type} (l : List α) (i j : Nat) :
    (swapAt l i j).length = l.length := by
  rw [swapAt]
  cases hi : l.get? i <;> cases hj : l.get? j <;> simp

theorem shuffleGo_length {α : Type} :
    ∀ (idx : List Nat) (values : List α) (g : Rng),
      (shuffleGo values g idx).1.length = values.length := by
  intro idx
  induction idx with
  | nil => intro values g; rfl
  | cons i rest ih =>
    intro values g
    rw [shuffleGo]
    rw [ih, swapAt_length]

theorem shuffle_length {α : Type} (items : List α) (g : Rng) :
    (shuffle items g).1.length = items.length := by
  rw [shuffle, shuffleGo_length]

theorem isSome_omap {α β : Type} (f : α → β) (o : Option α) :
    (o.map f).isSome = o.isSome := by
  cases o <;> rfl

theorem alGet_alSet_ne {κ ν : Type} [DecidableEq κ] :
    ∀ (m : AList κ ν) (k1 k : κ) (v : ν), k1 ≠ k → alGet (alSet m k1 v) k = alGet m k := by
  intro m
  induction m with
  | nil => intro k1 k v h; simp [alSet, alGet, h]
  | cons p rest ih =>
    intro k1 k v h
    rw [alSet]
    by_cases hp : p.1 = k1
    · rw [if_pos hp, alGet, alGet]
      have : ¬ p.1 = k := fun hc => h (hp ▸ hc)
      rw [if_neg this, if_neg this]
    · rw [if_neg hp, alGet, alGet]
      by_cases hpk : p.1 = k
      · rw [if_pos hpk, if_pos hpk]
      · rw [if_neg hpk, if_neg hpk]
        exact ih k1 k v h

theorem alGet_foldl_set_ne {κ ν : Type} [DecidableEq κ] :
    ∀ (l : List (κ × ν)) (m : AList κ ν) (k : κ), (∀ p ∈ l, p.1 ≠ k) →
      alGet (l.foldl (fun m2 kv => alSet m2 kv.1 kv.2) m) k = alGet m k := by
  intro l
  induction l with
  | nil => intro m k _; rfl
  | cons p rest ih =>
    intro m k h
    rw [List.foldl_cons]
    rw [ih (alSet m p.1 p.2) k (fun q hq => h q (List.mem_cons_of_mem p hq))]
    exact alGet_alSet_ne m p.1 k p.2 (h p (List.mem_cons_self p rest))

theorem alGet_alFromPairs_none {κ ν : Type} [DecidableEq κ]
    (l : List (κ × ν)) (k : κ) (h : ∀ p ∈ l, p.1 ≠ k) :
    alGet (alFromPairs l) k = none := by
  rw [alFromPairs, alGet_foldl_set_ne l [] k h, alGet]

theorem alSet_ne_nil {κ ν : Type} [DecidableEq κ] (m : AList κ ν) (k : κ) (v : ν) :
    alSet m k v ≠ [] := by
  cases m with
  | nil => rw [alSet]; intro h; cases h
  | cons p rest =>
    rw [alSet]
    by_cases hp : p.1 = k
    · rw [if_pos hp]; intro h; cases h
    · rw [if_neg hp]; intro h; cases h

theorem foldl_set_ne_nil {κ ν : Type} [DecidableEq κ] :
    ∀ (l : List (κ × ν)) (m : AList κ ν), m ≠ [] →
      l.foldl (fun m2 kv => alSet m2 kv.1 kv.2) m ≠ [] := by
  intro l
  induction l with
  | nil => intro m h; exact h
  | cons p rest ih =>
    intro m _
    rw [List.foldl_cons]
    exact ih (alSet m p.1 p.2) (alSet_ne_nil m p.1 p.2)

theorem alFromPairs_ne_nil {κ ν : Type} [DecidableEq κ]
    (l : List (κ × ν)) (h : l ≠ []) : alFromPairs l ≠ [] := by
  cases l with
  | nil => exact absurd rfl h
  | cons p rest =>
    rw [alFromPairs, List.foldl_cons]
    exact foldl_set_ne_nil rest (alSet [] p.1 p.2) (alSet_ne_nil [] p.1 p.2)

/-! ## Claim C10: the 2-by-2 four-cycle scenario -/

/-- Claim C10: on the 2x2 layout whose four blocks carry the single arrows
E, S, W, N forming a cycle, simulating from the (0,0) block yields exactly
four waves with exactly one source each, in cycle order, and succeeds. -/
theorem claimC10_fourCycle :
    (simulateAttempt
        [⟨"a", 0, 0, [.E]⟩, ⟨"b", 0, 1, [.S]⟩, ⟨"c", 1, 1, [.W]⟩, ⟨"d", 1, 0, [.N]⟩]
        "a" 2 2).success = true ∧
    (simulateAttempt
        [⟨"a", 0, 0, [.E]⟩, ⟨"b", 0, 1, [.S]⟩, ⟨"c", 1, 1, [.W]⟩, ⟨"d", 1, 0, [.N]⟩]
        "a" 2 2).waves.map waveSourceIds = [["a"], ["b"], ["c"], ["d"]] := by
  constructor
  · decide
  · decide

/-! ## Claim C5: determinism of `simulateAttempt` -/

/-- Claim C5: `simulateAttempt` is deterministic; two calls on structurally
identical inputs return structurally identical results (in this pure
embedding the function has no other state to depend on). -/
theorem claimC5_deterministic (b1 b2 : List ArrowBlock) (s1 s2 : String)
    (r1 r2 c1 c2 : Int) (hb : b1 = b2) (hs : s1 = s2) (hr : r1 = r2) (hc : c1 = c2) :
    simulateAttempt b1 s1 r1 c1 = simulateAttempt b2 s2 r2 c2 := by
  subst hb; subst hs; subst hr; subst hc; rfl

/-- Witness for claim C5 at a concrete input. -/
theorem claimC5_witness :
    simulateAttempt [⟨"w", 0, 0, [.E]⟩] "w" 1 1 = simulateAttempt [⟨"w", 0, 0, [.E]⟩] "w" 1 1 :=
  claimC5_deterministic [⟨"w", 0, 0, [.E]⟩] [⟨"w", 0, 0, [.E]⟩] "w" "w" 1 1 1 1 rfl rfl rfl rfl

/-! ## Claim C6: `simulateAttempt` does not mutate the layout -/

theorem simulateLoopH_spec :
    ∀ (fuel : Nat) (layoutById aliveById : AList String ArrowBlock)
      (byCoord : AList (Int × Int) String) (frontier : List String)
      (rows cols : Int) (store : List ArrowBlock),
      simulateLoopH layoutById aliveById byCoord frontier rows cols fuel store =
        (simulateLoopO layoutById aliveById byCoord frontier rows cols fuel, store) := by
  intro fuel
  induction fuel with
  | zero => intro layoutById aliveById byCoord frontier rows cols store; rfl
  | succ n ih =>
    intro layoutById aliveById byCoord frontier rows cols store
    rw [simulateLoopH, simulateLoopO]
    by_cases h1 : frontier.isEmpty
    · simp only [if_pos h1]
    · simp only [if_neg h1]
      by_cases h2 : (frontier.filter (fun id => alHas aliveById id)).isEmpty
      · simp only [if_pos h2]
      · simp only [if_neg h2]
        rw [ih]

/-- Claim C6: `simulateAttempt` never mutates its layout argument.  In the
heap-threading translation `simulateAttemptH`, where the caller's blocks
array is an explicit store visible to every loop iteration, the store
returned after the call is exactly the store passed in (same length, order
and per-block contents), and the computed result is that of
`simulateAttempt`. -/
theorem claimC6_noMutation (blocks : List ArrowBlock) (startId : String) (rows cols : Int) :
    simulateAttemptH blocks startId rows cols = (simulateAttempt blocks startId rows cols, blocks) := by
  rw [simulateAttemptH, simulateAttempt]
  rw [simulateLoopH_spec]
  cases simulateLoopO (alFromPairs (blocks.map (fun b => (b.id, b))))
      (alFromPairs (blocks.map (fun b => (b.id, b))))
      (alFromPairs (blocks.map (fun b => (coordKey b.row b.col, b.id)))) [startId] rows cols
      ((alFromPairs (blocks.map (fun b => (b.id, b)))).length + 1) with
  | none => rfl
  | some r => rfl

/-! ## Claim C9: invalid start selections are ignored -/

theorem simulateAttempt_unknownStart (blocks : List ArrowBlock) (startId : String)
    (rows cols : Int) (h : ∀ b ∈ blocks, b.id ≠ startId) :
    (simulateAttempt blocks startId rows cols).waves = [] ∧
      ((simulateAttempt blocks startId rows cols).success = true ↔ blocks = []) := by
  have hget : alGet (alFromPairs (blocks.map (fun b => (b.id, b)))) startId = none := by
    apply alGet_alFromPairs_none
    intro p hp
    obtain ⟨b, hb, hpb⟩ := List.mem_map.mp hp
    rw [← hpb]
    exact h b hb
  have hHas : alHas (alFromPairs (blocks.map (fun b => (b.id, b)))) startId = false := by
    rw [alHas, hget]; rfl
  have hfilter :
      [startId].filter (fun id => alHas (alFromPairs (blocks.map (fun b => (b.id, b)))) id) = [] := by
    simp [List.filter, hHas]
  have hrun :
      simulateAttempt blocks startId rows cols =
        { waves := [],
          success := (alFromPairs (blocks.map (fun b => (b.id, b)))).length == 0 } := by
    rw [simulateAttempt, simulateLoopO]
    rw [show ([startId].isEmpty) = false from rfl]
    rw [if_neg (by simp)]
    rw [hfilter]
    rfl
  rw [hrun]
  refine ⟨rfl, ?_⟩
  cases hb : blocks with
  | nil => simp [alFromPairs]
  | cons b rest =>
    simp only [iff_false, List.cons_ne_nil, iff_false]
    have hne : alFromPairs ((b :: rest).map (fun b2 => (b2.id, b2))) ≠ [] := by
      apply alFromPairs_ne_nil
      simp
    intro hcontra
    apply hne
    cases hlen : alFromPairs ((b :: rest).map (fun b2 => (b2.id, b2))) with
    | nil => rfl
    | cons q qs =>
      rw [hlen] at hcontra
      simp at hcontra

/-- Claim C9: an invalid start selection is ignored with no state change.
For a startId that is no block's id, `simulateAttempt` returns no waves
and succeeds only on the empty layout; and the synchronous prefix of
`playAttempt` leaves the session untouched when the clicked id is not
among the alive blocks or the simulation has zero waves. -/
theorem claimC9_invalidStartIgnored :
    (∀ (blocks : List ArrowBlock) (startId : String) (rows cols : Int),
      (∀ b ∈ blocks, b.id ≠ startId) →
      (simulateAttempt blocks startId rows cols).waves = [] ∧
        ((simulateAttempt blocks startId rows cols).success = true ↔ blocks = [])) ∧
    (∀ (s : SessionState) (startId : String),
      (s.blocks.any (fun block => block.id == startId) = false ∨
        (simulateAttempt s.blocks startId s.puzzle.rows s.puzzle.cols).waves = []) →
      playAttemptSync s startId = s) := by
  constructor
  · exact simulateAttempt_unknownStart
  · intro s startId h
    rw [playAttemptSync]
    by_cases h1 : (controlsLocked s || s.blocks.length == 0) = true
    · rw [if_pos h1]
    · rw [if_neg h1]
      by_cases h2 : (!(s.blocks.any (fun block => block.id == startId))) = true
      · rw [if_pos h2]
      · rw [if_neg h2]
        have hw : (simulateAttempt s.blocks startId s.puzzle.rows s.puzzle.cols).waves = [] := by
          cases h with
          | inl hfalse =>
            exfalso
            apply h2
            rw [hfalse]
            rfl
          | inr hwaves => exact hwaves
        rw [if_pos (by rw [hw]; rfl)]

/-- Witness for claim C9 at concrete inputs. -/
theorem claimC9_witness :
    ((simulateAttempt [⟨"b0", 0, 0, [.E]⟩] "nope" 1 1).waves = [] ∧
      ((simulateAttempt [⟨"b0", 0, 0, [.E]⟩] "nope" 1 1).success = true ↔
        ([⟨"b0", 0, 0, [.E]⟩] : List ArrowBlock) = [])) ∧
    playAttemptSync
        { puzzle := { serial := 1, difficulty := .easy, rows := 1, cols := 1,
                      initialBlocks := [⟨"b0", 0, 0, [.E]⟩], solutionStartId := "b0" },
          blocks := [⟨"b0", 0, 0, [.E]⟩], attempts := 0, phase := .idle,
          resolveResult := none, activeBlockIds := [], hitBlockIds := [], rayVisuals := [],
          showSuccessModal := false, hintStartId := none, animationRun := 0 }
        "nope" =
      { puzzle := { serial := 1, difficulty := .easy, rows := 1, cols := 1,
                    initialBlocks := [⟨"b0", 0, 0, [.E]⟩], solutionStartId := "b0" },
        blocks := [⟨"b0", 0, 0, [.E]⟩], attempts := 0, phase := .idle,
        resolveResult := none, activeBlockIds := [], hitBlockIds := [], rayVisuals := [],
        showSuccessModal := false, hintStartId := none, animationRun := 0 } := by
  constructor
  · exact claimC9_invalidStartIgnored.1 [⟨"b0", 0, 0, [.E]⟩] "nope" 1 1 (by decide)
  · exact claimC9_invalidStartIgnored.2 _ "nope" (Or.inl (by decide))

/-! ## Claim C7: every generated block has a non-empty direction list -/

theorem intRange_bounds : ∀ (n x : Int), x ∈ intRange n → 0 ≤ x ∧ x < n := by
  intro n x hx
  rw [intRange, List.mem_map] at hx
  obtain ⟨k, hk, hkx⟩ := hx
  rw [List.mem_range] at hk
  subst hkx
  constructor
  · show (0 : Int) ≤ (k : Int)
    exact Int.natCast_nonneg k
  · show (k : Int) < n
    omega

theorem getNeighborEntries_ne_nil (row col rows cols : Int)
    (hr0 : 0 ≤ row) (hrlt : row < rows) (hc0 : 0 ≤ col) (hclt : col < cols)
    (hrows : 2 ≤ rows) : getNeighborEntries row col rows cols ≠ [] := by
  rw [getNeighborEntries]
  by_cases hdown : row + 1 < rows
  · apply List.ne_nil_of_mem (a :=
      { dir := ArrowDir.S
        row := row + (DIR_VECTORS ArrowDir.S).1
        col := col + (DIR_VECTORS ArrowDir.S).2
        key := coordKey (row + (DIR_VECTORS ArrowDir.S).1) (col + (DIR_VECTORS ArrowDir.S).2) })
    apply List.mem_filter.mpr
    constructor
    · exact List.mem_map.mpr ⟨ArrowDir.S, by decide, rfl⟩
    · show inBounds (row + 1) (col + 0) rows cols = true
      rw [inBounds]
      simp only [Bool.and_eq_true, decide_eq_true_eq]
      omega
  · apply List.ne_nil_of_mem (a :=
      { dir := ArrowDir.N
        row := row + (DIR_VECTORS ArrowDir.N).1
        col := col + (DIR_VECTORS ArrowDir.N).2
        key := coordKey (row + (DIR_VECTORS ArrowDir.N).1) (col + (DIR_VECTORS ArrowDir.N).2) })
    apply List.mem_filter.mpr
    constructor
    · exact List.mem_map.mpr ⟨ArrowDir.N, by decide, rfl⟩
    · show inBounds (row + -1) (col + 0) rows cols = true
      rw [inBounds]
      simp only [Bool.and_eq_true, decide_eq_true_eq]
      omega

theorem shuffle_ne_nil {α : Type} (items : List α) (g : Rng) (h : items ≠ []) :
    (shuffle items g).1 ≠ [] := by
  intro hcontra
  apply h
  have := shuffle_length items g
  rw [hcontra] at this
  exact List.length_eq_zero.mp this.symm

theorem buildCellDirs_ne_nil (tree : GrowthTree) (config : DifficultyConfig)
    (row col : Int) (g : Rng)
    (hne : getNeighborEntries row col config.rows config.cols ≠ []) :
    (buildCellDirs tree config row col g).1 ≠ [] := by
  have hmapne : (getNeighborEntries row col config.rows config.cols).map
      (fun e => e.dir) ≠ [] := by
    intro hc
    exact hne (List.map_eq_nil_iff.mp hc)
  rw [buildCellDirs]
  generalize buildCellDirsBase tree config row col g = step2
  by_cases hstep : step2.1.isEmpty
  · simp only [hstep, if_pos]
    by_cases hn2 : ((getNeighborEntries row col config.rows config.cols).map
        (fun e => e.dir)).isEmpty
    · exact absurd (List.isEmpty_iff.mp hn2) hmapne
    · simp only [hn2, Bool.false_eq_true, if_false]
      exact addSet_ne_nil _ _
  · simp only [hstep, Bool.false_eq_true, if_false]
    intro hc
    apply hstep
    rw [hc]
    rfl

theorem sparse_inner_fold_dirs (tree : GrowthTree) (config : DifficultyConfig)
    (serial : Nat) (row : Int) (hrow : 0 ≤ row ∧ row < config.rows) (hrows : 2 ≤ config.rows) :
    ∀ (colsL : List Int) (acc : List ArrowBlock × Rng),
      (∀ col ∈ colsL, 0 ≤ col ∧ col < config.cols) →
      (∀ b ∈ acc.1, b.dirs ≠ []) →
      ∀ b ∈ (colsL.foldl
        (fun acc2 col =>
          let cell := buildCellDirs tree config row col acc2.2
          let shuffled := shuffle cell.1 cell.2
          (acc2.1 ++
              [{ id := idOf serial row col, row := row, col := col,
                 dirs := shuffled.1 : ArrowBlock }],
            shuffled.2)) acc).1, b.dirs ≠ [] := by
  exact fun colsL => by
    induction colsL with
    | nil => intro acc _ hacc b hb; exact hacc b hb
    | cons col rest ih =>
      intro acc hcols hacc b hb
      rw [List.foldl_cons] at hb
      refine ih _ (fun c hc => hcols c (List.mem_cons_of_mem col hc)) ?_ b hb
      intro b2 hb2
      rw [List.mem_append] at hb2
      cases hb2 with
      | inl hin => exact hacc b2 hin
      | inr hnew =>
        have hbeq : b2 = (⟨idOf serial row col, row, col,
            (shuffle (buildCellDirs tree config row col acc.2).1
              (buildCellDirs tree config row col acc.2).2).1⟩ : ArrowBlock) := by
          cases hnew with
          | head => rfl
          | tail _ h2 => cases h2
        rw [hbeq]
        show (shuffle (buildCellDirs tree config row col acc.2).1
          (buildCellDirs tree config row col acc.2).2).1 ≠ []
        apply shuffle_ne_nil
        apply buildCellDirs_ne_nil
        obtain ⟨hc0, hclt⟩ := hcols col (List.mem_cons_self col rest)
        exact getNeighborEntries_ne_nil row col config.rows config.cols
          hrow.1 hrow.2 hc0 hclt hrows

theorem createSparseBlocksFromTree_dirs (tree : GrowthTree) (serial : Nat)
    (config : DifficultyConfig) (g : Rng) (hrows : 2 ≤ config.rows) :
    ∀ b ∈ (createSparseBlocksFromTree tree serial config g).1, b.dirs ≠ [] := by
  rw [createSparseBlocksFromTree]
  have houter : ∀ (rowsL : List Int) (acc : List ArrowBlock × Rng),
      (∀ row ∈ rowsL, 0 ≤ row ∧ row < config.rows) →
      (∀ b ∈ acc.1, b.dirs ≠ []) →
      ∀ b ∈ (rowsL.foldl
        (fun acc row =>
          (intRange config.cols).foldl
            (fun acc2 col =>
              let cell := buildCellDirs tree config row col acc2.2
              let shuffled := shuffle cell.1 cell.2
              (acc2.1 ++
                  [{ id := idOf serial row col, row := row, col := col,
                     dirs := shuffled.1 : ArrowBlock }],
                shuffled.2)) acc) acc).1, b.dirs ≠ [] := by
    intro rowsL
    induction rowsL with
    | nil => intro acc _ hacc b hb; exact hacc b hb
    | cons row rest ih =>
      intro acc hrowsL hacc b hb
      rw [List.foldl_cons] at hb
      refine ih _ (fun r hr => hrowsL r (List.mem_cons_of_mem row hr)) ?_ b hb
      exact sparse_inner_fold_dirs tree config serial row
        (hrowsL row (List.mem_cons_self row rest)) hrows (intRange config.cols) acc
        (fun c hc => intRange_bounds config.cols c hc) hacc
  exact houter (intRange config.rows) ([], g)
    (fun r hr => intRange_bounds config.rows r hr) (by intro b hb; cases hb)

theorem createPuzzleGo_dirs (difficulty : DifficultyId) (serial : Nat)
    (config : DifficultyConfig) (hrows : 2 ≤ config.rows) :
    ∀ (n : Nat) (fb : Option FallbackInfo) (g : Rng),
      (∀ f, fb = some f → ∀ b ∈ f.blocks, b.dirs ≠ []) →
      ∀ b ∈ (createPuzzleGo difficulty serial config n fb g).1.initialBlocks, b.dirs ≠ [] := by
  intro n
  induction n with
  | zero =>
    intro fb g hfb b hb
    rw [createPuzzleGo, afterLoop.eq_def] at hb
    cases hfbv : fb with
    | some f =>
      rw [hfbv] at hb
      exact hfb f hfbv b hb
    | none =>
      rw [hfbv] at hb
      cases hem : (buildRandomGrowthTree config.rows config.cols 1 (fun _ => 0.5)).1 with
      | some emergencyTree =>
        rw [hem] at hb
        exact createSparseBlocksFromTree_dirs emergencyTree serial
          { config with maxDirs := 1, extraDirChance := 0, leafDecoyChance := 0.5 }
          (fun _ => 0.7) hrows b hb
      | none =>
        rw [hem] at hb
        simp only [List.mem_map] at hb
        obtain ⟨p, _, hpb⟩ := hb
        rw [← hpb]
        intro hc
        cases hc
  | succ n ih =>
    intro fb g hfb b hb
    rw [createPuzzleGo] at hb
    cases hbuilt : (buildRandomGrowthTree config.rows config.cols config.maxDirs g).1 with
    | none =>
      rw [hbuilt] at hb
      exact ih fb _ hfb b hb
    | some tree =>
      rw [hbuilt] at hb
      dsimp only [] at hb
      by_cases hval : (simulateAttempt
          (createSparseBlocksFromTree tree serial config
            (buildRandomGrowthTree config.rows config.cols config.maxDirs g).2).1
          (idOf serial tree.root.row tree.root.col) config.rows config.cols).success = true
      · rw [if_pos hval] at hb
        by_cases hwin : (collectWinningStarts
            (createSparseBlocksFromTree tree serial config
              (buildRandomGrowthTree config.rows config.cols config.maxDirs g).2).1
            config.rows config.cols WINNER_SCAN_STOP).length ≤ TARGET_MAX_WINNERS
        · rw [if_pos hwin] at hb
          exact createSparseBlocksFromTree_dirs tree serial config _ hrows b hb
        · rw [if_neg hwin] at hb
          refine ih _ _ ?_ b hb
          intro f hf
          cases hfbv : fb with
          | none =>
            rw [hfbv] at hf
            have hfeq := Option.some.inj hf
            rw [← hfeq]
            exact createSparseBlocksFromTree_dirs tree serial config _ hrows
          | some f0 =>
            rw [hfbv] at hf
            dsimp only [] at hf
            by_cases hcnt : (collectWinningStarts
                (createSparseBlocksFromTree tree serial config
                  (buildRandomGrowthTree config.rows config.cols config.maxDirs g).2).1
                config.rows config.cols WINNER_SCAN_STOP).length < f0.winnerCount
            · rw [if_pos hcnt] at hf
              have hfeq := Option.some.inj hf
              rw [← hfeq]
              exact createSparseBlocksFromTree_dirs tree serial config _ hrows
            · rw [if_neg hcnt] at hf
              rw [← hfbv] at hf
              exact hfb f hf
      · rw [if_neg hval] at hb
        exact ih fb _ hfb b hb

/-- Claim C7: every block of every layout produced by `createPuzzle` has a
non-empty direction list: the sparse-layout builder unconditionally adds
one random-neighbor decoy arrow to any otherwise empty cell (all shipped
profiles have at least a 5x5 grid, so every cell has a neighbor), and the
last-resort layout gives every cell exactly one arrow. -/
theorem claimC7_dirsNonempty (difficulty : DifficultyId) (g : Rng) (serial : Nat) :
    (createPuzzle difficulty g serial).initialBlocks.all (fun b => !b.dirs.isEmpty) = true := by
  rw [List.all_eq_true]
  intro b hb
  have hrows : 2 ≤ (DIFFICULTY_CONFIGS difficulty).rows := by
    cases difficulty <;> decide
  have hne := createPuzzleGo_dirs difficulty serial (DIFFICULTY_CONFIGS difficulty) hrows
    GENERATE_RETRIES none g (fun f hf => by cases hf) b hb
  cases hdirs : b.dirs with
  | nil => exact absurd hdirs hne
  | cons d rest => rfl

/-! ## Claim C8: acceptance implies at most two winning starts in total -/

theorem collectGo_short (blocks : List ArrowBlock) (rows cols : Int) (stopAfter : Nat) :
    ∀ (rest : List ArrowBlock) (winners : List String),
      (collectGo blocks rows cols stopAfter rest winners).length < stopAfter →
      collectGo blocks rows cols stopAfter rest winners =
        winners ++ (rest.filter
          (fun b => (simulateAttempt blocks b.id rows cols).success)).map (fun b => b.id) := by
  intro rest
  induction rest with
  | nil =>
    intro winners _
    rw [collectGo, List.filter_nil, List.map_nil, List.append_nil]
  | cons b rest2 ih =>
    intro winners hlen
    rw [collectGo] at hlen
    rw [collectGo]
    by_cases hwb : (simulateAttempt blocks b.id rows cols).success = true
    · rw [if_pos hwb] at hlen
      rw [if_pos hwb]
      by_cases hstop : stopAfter ≤ (winners ++ [b.id]).length
      · rw [if_pos hstop] at hlen
        exact absurd hlen (not_lt_of_le hstop)
      · rw [if_neg hstop] at hlen
        rw [if_neg hstop, ih (winners ++ [b.id]) hlen, List.filter_cons]
        rw [if_pos hwb, List.map_cons, List.append_assoc, List.singleton_append]
    · rw [if_neg hwb] at hlen
      rw [if_neg hwb, ih winners hlen, List.filter_cons, if_neg hwb]

theorem collect_short_counts_all (blocks : List ArrowBlock) (rows cols : Int)
    (h : (collectWinningStarts blocks rows cols WINNER_SCAN_STOP).length ≤ TARGET_MAX_WINNERS) :
    (winningBlocks blocks rows cols).map (fun b => b.id) =
      collectWinningStarts blocks rows cols WINNER_SCAN_STOP := by
  have hlt : (collectGo blocks rows cols WINNER_SCAN_STOP blocks []).length < WINNER_SCAN_STOP := by
    rw [collectWinningStarts] at h
    exact lt_of_le_of_lt h (by rw [WINNER_SCAN_STOP]; exact Nat.lt_succ_self TARGET_MAX_WINNERS)
  rw [collectWinningStarts, collectGo_short blocks rows cols WINNER_SCAN_STOP blocks [] hlt,
    List.nil_append, winningBlocks]

theorem createPuzzleGo_accepted_winners (difficulty : DifficultyId) (serial : Nat)
    (config : DifficultyConfig) :
    ∀ (n : Nat) (fb : Option FallbackInfo) (g : Rng),
      (createPuzzleGo difficulty serial config n fb g).2 = RetPath.accepted →
      (winningBlocks (createPuzzleGo difficulty serial config n fb g).1.initialBlocks
        (createPuzzleGo difficulty serial config n fb g).1.rows
        (createPuzzleGo difficulty serial config n fb g).1.cols).length ≤ TARGET_MAX_WINNERS := by
  intro n
  induction n with
  | zero =>
    intro fb g hpath
    exfalso
    rw [createPuzzleGo, afterLoop.eq_def] at hpath
    cases fb with
    | some f => cases hpath
    | none =>
      cases hem : (buildRandomGrowthTree config.rows config.cols 1 (fun _ => 0.5)).1 with
      | some emergencyTree => rw [hem] at hpath; cases hpath
      | none => rw [hem] at hpath; cases hpath
  | succ n ih =>
    intro fb g hpath
    rw [createPuzzleGo] at hpath
    rw [createPuzzleGo]
    cases hbuilt : (buildRandomGrowthTree config.rows config.cols config.maxDirs g).1 with
    | none =>
      rw [hbuilt] at hpath
      dsimp only [] at hpath ⊢
      exact ih fb _ hpath
    | some tree =>
      rw [hbuilt] at hpath
      dsimp only [] at hpath ⊢
      by_cases hval : (simulateAttempt
          (createSparseBlocksFromTree tree serial config
            (buildRandomGrowthTree config.rows config.cols config.maxDirs g).2).1
          (idOf serial tree.root.row tree.root.col) config.rows config.cols).success = true
      · rw [if_pos hval] at hpath
        rw [if_pos hval]
        by_cases hwin : (collectWinningStarts
            (createSparseBlocksFromTree tree serial config
              (buildRandomGrowthTree config.rows config.cols config.maxDirs g).2).1
            config.rows config.cols WINNER_SCAN_STOP).length ≤ TARGET_MAX_WINNERS
        · rw [if_pos hwin] at hpath
          rw [if_pos hwin]
          have hcount := collect_short_counts_all
            (createSparseBlocksFromTree tree serial config
              (buildRandomGrowthTree config.rows config.cols config.maxDirs g).2).1
            config.rows config.cols hwin
          have hlenmap := congrArg List.length hcount
          rw [List.length_map] at hlenmap
      -- the accepted puzzle carries exactly the scanned blocks and grid size
          show (winningBlocks
            (createSparseBlocksFromTree tree serial config
              (buildRandomGrowthTree config.rows config.cols config.maxDirs g).2).1
            config.rows config.cols).length ≤ TARGET_MAX_WINNERS
          rw [hlenmap]
          exact hwin
        · rw [if_neg hwin] at hpath
          rw [if_neg hwin]
          exact ih _ _ hpath
      · rw [if_neg hval] at hpath
        rw [if_neg hval]
        exact ih fb _ hpath

/-- Claim C8: the early-stopping winner scan undercounts nothing below its
cap, so any layout accepted inside the retry loop has at most
TARGET_MAX_WINNERS (two) blocks in total whose activation clears the whole
board: (a) whenever the scan, which stops only after finding a third
winner, reports at most two winners, it has counted every winner of the
block list; (b) every puzzle returned through the accepted path has at
most two winning blocks. -/
theorem claimC8_winnerCap :
    (∀ (blocks : List ArrowBlock) (rows cols : Int),
      (collectWinningStarts blocks rows cols WINNER_SCAN_STOP).length ≤ TARGET_MAX_WINNERS →
      (winningBlocks blocks rows cols).map (fun b => b.id) =
        collectWinningStarts blocks rows cols WINNER_SCAN_STOP) ∧
    (∀ (difficulty : DifficultyId) (g : Rng) (serial : Nat),
      (createPuzzleEx difficulty g serial).2 ≠ RetPath.accepted ∨
      (winningBlocks (createPuzzleEx difficulty g serial).1.initialBlocks
        (createPuzzleEx difficulty g serial).1.rows
        (createPuzzleEx difficulty g serial).1.cols).length ≤ TARGET_MAX_WINNERS) := by
  constructor
  · exact collect_short_counts_all
  · intro difficulty g serial
    by_cases hpath : (createPuzzleEx difficulty g serial).2 = RetPath.accepted
    · right
      exact createPuzzleGo_accepted_winners difficulty serial
        (DIFFICULTY_CONFIGS difficulty) GENERATE_RETRIES none g hpath
    · left
      exact hpath

/-- Witness for claim C8 at a concrete input. -/
theorem claimC8_witness :
    (winningBlocks ([] : List ArrowBlock) 1 1).map (fun b => b.id) =
      collectWinningStarts [] 1 1 WINNER_SCAN_STOP :=
  claimC8_winnerCap.1 [] 1 1 (by decide)

/-! ## Claim C4: termination of the loops within their wired fuel -/

theorem castRay_isSome (byCoord : AList (Int × Int) String) (rows cols dr dc : Int)
    (μ : Int → Int → Nat)
    (hdec : ∀ r c, inBounds r c rows cols = true → μ (r + dr) (c + dc) + 1 ≤ μ r c) :
    ∀ (fuel : Nat) (r c : Int), 0 < fuel →
      (inBounds r c rows cols = true → μ r c < fuel) →
      (castRay byCoord rows cols dr dc r c fuel).isSome = true := by
  intro fuel
  induction fuel with
  | zero => intro r c h0 _; exact absurd h0 (by omega)
  | succ k ih =>
    intro r c _ hbound
    rw [castRay]
    by_cases hin : inBounds r c rows cols = true
    · rw [if_pos hin]
      have hμ : μ r c < k + 1 := hbound hin
      have hμ2 : μ (r + dr) (c + dc) + 1 ≤ μ r c := hdec r c hin
      have hrec := ih (r + dr) (c + dc) (by omega) (fun _ => by omega)
      cases hget : alGet byCoord (coordKey r c) with
      | some hitId =>
        dsimp only []
        by_cases hemp : hitId = ""
        · rw [if_pos hemp]
          rw [isSome_omap]
          exact hrec
        · rw [if_neg hemp]
          rfl
      | none =>
        dsimp only []
        rw [isSome_omap]
        exact hrec
    · rw [if_neg hin]
      rfl

theorem castNearestO_isSome (block : ArrowBlock) (dir : ArrowDir)
    (byCoord : AList (Int × Int) String) (rows cols : Int) :
    (castNearestO block dir byCoord rows cols).isSome = true := by
  rw [castNearestO, isSome_omap]
  have hbool : ∀ r c : Int, inBounds r c rows cols = true →
      0 ≤ r ∧ r < rows ∧ 0 ≤ c ∧ c < cols := by
    intro r c h
    rw [inBounds] at h
    simp only [Bool.and_eq_true, decide_eq_true_eq] at h
    exact ⟨h.1.1.1, h.1.1.2, h.1.2, h.2⟩
  cases dir with
  | N =>
    refine castRay_isSome byCoord rows cols _ _ (fun r _ => (r + 1).toNat) ?_ _ _ _ (by omega) ?_
    · intro r c hin
      have := hbool r c hin
      dsimp only [DIR_VECTORS]
      omega
    · intro hin
      have := hbool _ _ hin
      dsimp only [DIR_VECTORS] at this ⊢
      omega
  | NE =>
    refine castRay_isSome byCoord rows cols _ _ (fun r _ => (r + 1).toNat) ?_ _ _ _ (by omega) ?_
    · intro r c hin
      have := hbool r c hin
      dsimp only [DIR_VECTORS]
      omega
    · intro hin
      have := hbool _ _ hin
      dsimp only [DIR_VECTORS] at this ⊢
      omega
  | E =>
    refine castRay_isSome byCoord rows cols _ _ (fun _ c => (cols - c).toNat) ?_ _ _ _ (by omega) ?_
    · intro r c hin
      have := hbool r c hin
      dsimp only [DIR_VECTORS]
      omega
    · intro hin
      have := hbool _ _ hin
      dsimp only [DIR_VECTORS] at this ⊢
      omega
  | SE =>
    refine castRay_isSome byCoord rows cols _ _ (fun r _ => (rows - r).toNat) ?_ _ _ _ (by omega) ?_
    · intro r c hin
      have := hbool r c hin
      dsimp only [DIR_VECTORS]
      omega
    · intro hin
      have := hbool _ _ hin
      dsimp only [DIR_VECTORS] at this ⊢
      omega
  | S =>
    refine castRay_isSome byCoord rows cols _ _ (fun r _ => (rows - r).toNat) ?_ _ _ _ (by omega) ?_
    · intro r c hin
      have := hbool r c hin
      dsimp only [DIR_VECTORS]
      omega
    · intro hin
      have := hbool _ _ hin
      dsimp only [DIR_VECTORS] at this ⊢
      omega
  | SW =>
    refine castRay_isSome byCoord rows cols _ _ (fun r _ => (rows - r).toNat) ?_ _ _ _ (by omega) ?_
    · intro r c hin
      have := hbool r c hin
      dsimp only [DIR_VECTORS]
      omega
    · intro hin
      have := hbool _ _ hin
      dsimp only [DIR_VECTORS] at this ⊢
      omega
  | W =>
    refine castRay_isSome byCoord rows cols _ _ (fun _ c => (c + 1).toNat) ?_ _ _ _ (by omega) ?_
    · intro r c hin
      have := hbool r c hin
      dsimp only [DIR_VECTORS]
      omega
    · intro hin
      have := hbool _ _ hin
      dsimp only [DIR_VECTORS] at this ⊢
      omega
  | NW =>
    refine castRay_isSome byCoord rows cols _ _ (fun r _ => (r + 1).toNat) ?_ _ _ _ (by omega) ?_
    · intro r c hin
      have := hbool r c hin
      dsimp only [DIR_VECTORS]
      omega
    · intro hin
      have := hbool _ _ hin
      dsimp only [DIR_VECTORS] at this ⊢
      omega

theorem alErase_length_le {κ ν : Type} [DecidableEq κ] :
    ∀ (m : AList κ ν) (k : κ), (alErase m k).length ≤ m.length := by
  intro m
  induction m with
  | nil => intro k; exact Nat.le_refl 0
  | cons p rest ih =>
    intro k
    rw [alErase]
    by_cases hp : p.1 = k
    · rw [if_pos hp]
      exact Nat.le_succ rest.length
    · rw [if_neg hp, List.length_cons, List.length_cons]
      exact Nat.succ_le_succ (ih k)

theorem alErase_length_lt {κ ν : Type} [DecidableEq κ] :
    ∀ (m : AList κ ν) (k : κ) (v : ν), alGet m k = some v →
      (alErase m k).length < m.length := by
  intro m
  induction m with
  | nil => intro k v h; simp [alGet] at h
  | cons p rest ih =>
    intro k v h
    rw [alGet] at h
    rw [alErase]
    by_cases hp : p.1 = k
    · rw [if_pos hp]
      exact Nat.lt_succ_self rest.length
    · rw [if_neg hp] at h
      rw [if_neg hp, List.length_cons, List.length_cons]
      exact Nat.succ_lt_succ (ih k v h)

theorem removeFold_length_le :
    ∀ (ids : List String) (st : AList String ArrowBlock × AList (Int × Int) String),
      ((ids.foldl
        (fun st2 id =>
          match alGet st2.1 id with
          | none => st2
          | some block => (alErase st2.1 id, alErase st2.2 (coordKey block.row block.col)))
        st).1).length ≤ st.1.length := by
  intro ids
  induction ids with
  | nil => intro st; exact Nat.le_refl _
  | cons id rest ih =>
    intro st
    rw [List.foldl_cons]
    refine le_trans (ih _) ?_
    cases hget : alGet st.1 id with
    | none => exact Nat.le_refl _
    | some block =>
      exact le_of_lt (alErase_length_lt st.1 id block hget)

theorem simulateLoopO_isSome (layoutById : AList String ArrowBlock) (rows cols : Int) :
    ∀ (fuel : Nat) (aliveById : AList String ArrowBlock)
      (byCoord : AList (Int × Int) String) (frontier : List String),
      aliveById.length < fuel →
      (simulateLoopO layoutById aliveById byCoord frontier rows cols fuel).isSome = true := by
  intro fuel
  induction fuel with
  | zero => intro aliveById byCoord frontier h; exact absurd h (by omega)
  | succ k ih =>
    intro aliveById byCoord frontier hlen
    rw [simulateLoopO]
    by_cases h1 : frontier.isEmpty
    · rw [if_pos h1]; rfl
    · rw [if_neg h1]
      cases hcur : frontier.filter (fun id => alHas aliveById id) with
      | nil => rfl
      | cons id0 restIds =>
        dsimp only []
        simp only [List.isEmpty_cons, Bool.false_eq_true, if_false, isSome_omap]
        apply ih
        have hmem : id0 ∈ frontier.filter (fun id => alHas aliveById id) := by
          rw [hcur]; exact List.mem_cons_self id0 restIds
        have hhas : alHas aliveById id0 = true := (List.mem_filter.mp hmem).2
        rw [alHas, Option.isSome_iff_exists] at hhas
        obtain ⟨b0, hb0⟩ := hhas
        have hfold := removeFold_length_le restIds
          (alErase aliveById id0, alErase byCoord (coordKey b0.row b0.col))
        dsimp only [] at hfold
        have hlt := alErase_length_lt aliveById id0 b0 hb0
        rw [List.foldl_cons, hb0]
        dsimp only []
        exact lt_of_le_of_lt hfold (by omega)

theorem rngValid_tail (g : Rng) (h : RngValid g) : RngValid (rngNext g).2 :=
  fun n => h (n + 1)

theorem getD_mem {α : Type} : ∀ (l : List α) (n : Nat) (d : α), n < l.length →
    l.getD n d ∈ l := by
  intro l
  induction l with
  | nil => intro n d h; exact absurd h (by simp)
  | cons a rest ih =>
    intro n d h
    cases n with
    | zero => exact List.mem_cons_self a rest
    | succ m =>
      rw [List.length_cons] at h
      exact List.mem_cons_of_mem a (ih m d (by omega))

theorem chooseRandom_mem {α : Type} [Inhabited α] (values : List α) (g : Rng)
    (hv : RngValid g) (hne : values ≠ []) : (chooseRandom values g).1 ∈ values := by
  have hlen : 0 < values.length := List.length_pos.mpr hne
  have hq := hv 0
  have hq0 : (0 : ℚ) ≤ g 0 := hq.1
  have hq1 : g 0 < 1 := hq.2
  have hlq : (0 : ℚ) < (values.length : ℚ) := by exact_mod_cast hlen
  have harg : ((values.length : Int) - 1 - 0 + 1 : Int) = (values.length : Int) := by ring
  have hfl0 : 0 ≤ Int.floor (g 0 * (((values.length : Int) - 1 - 0 + 1 : Int) : ℚ)) := by
    apply Int.floor_nonneg.mpr
    apply mul_nonneg hq0
    rw [harg]
    exact_mod_cast le_of_lt hlq
  have hflt : Int.floor (g 0 * (((values.length : Int) - 1 - 0 + 1 : Int) : ℚ)) <
      (values.length : Int) := by
    apply Int.floor_lt.mpr
    rw [harg]
    push_cast
    calc g 0 * (values.length : ℚ) < 1 * (values.length : ℚ) :=
          mul_lt_mul_of_pos_right hq1 hlq
      _ = (values.length : ℚ) := one_mul _
  show (values.getD (0 + Int.floor (g 0 * (((values.length : Int) - 1 - 0 + 1 : Int) : ℚ))).toNat
    default) ∈ values
  apply getD_mem
  omega

theorem eraseSet_length_le {α : Type} [DecidableEq α] :
    ∀ (s : List α) (a : α), (eraseSet s a).length ≤ s.length := by
  intro s
  induction s with
  | nil => intro a; exact Nat.le_refl 0
  | cons b rest ih =>
    intro a
    rw [eraseSet]
    by_cases hb : b = a
    · rw [if_pos hb]; exact Nat.le_succ rest.length
    · rw [if_neg hb, List.length_cons, List.length_cons]
      exact Nat.succ_le_succ (ih a)

theorem alSet_length_le {κ ν : Type} [DecidableEq κ] :
    ∀ (m : AList κ ν) (k : κ) (v : ν), (alSet m k v).length ≤ m.length + 1 := by
  intro m
  induction m with
  | nil => intro k v; exact Nat.le_refl 1
  | cons p rest ih =>
    intro k v
    rw [alSet]
    by_cases hp : p.1 = k
    · rw [if_pos hp, List.length_cons, List.length_cons]
      exact Nat.le_succ _
    · rw [if_neg hp, List.length_cons, List.length_cons]
      exact Nat.succ_le_succ (ih k v)

theorem foldl_set_length_le {κ ν : Type} [DecidableEq κ] :
    ∀ (l : List (κ × ν)) (m : AList κ ν),
      (l.foldl (fun m2 kv => alSet m2 kv.1 kv.2) m).length ≤ m.length + l.length := by
  intro l
  induction l with
  | nil => intro m; exact Nat.le_refl _
  | cons p rest ih =>
    intro m
    rw [List.foldl_cons]
    refine le_trans (ih (alSet m p.1 p.2)) ?_
    have := alSet_length_le m p.1 p.2
    rw [List.length_cons]
    omega

theorem alFromPairs_length_le {κ ν : Type} [DecidableEq κ] (l : List (κ × ν)) :
    (alFromPairs l).length ≤ l.length := by
  rw [alFromPairs]
  have := foldl_set_length_le l ([] : AList κ ν)
  simpa using this

theorem flatMap_length_const {α β : Type} (c : Nat) :
    ∀ (l : List α) (f : α → List β), (∀ a ∈ l, (f a).length = c) →
      (l.flatMap f).length = l.length * c := by
  intro l
  induction l with
  | nil => intro f _; simp
  | cons a rest ih =>
    intro f h
    rw [List.flatMap_cons, List.length_append, List.length_cons,
      h a (List.mem_cons_self a rest), ih f (fun b hb => h b (List.mem_cons_of_mem a hb))]
    ring

theorem intRange_length (n : Int) : (intRange n).length = n.toNat := by
  rw [intRange, List.length_map, List.length_range]

theorem buildAllPoints_length (rows cols : Int) :
    (buildAllPoints rows cols).length = rows.toNat * cols.toNat := by
  rw [buildAllPoints, flatMap_length_const cols.toNat _ _
    (fun a _ => by rw [List.length_map, intRange_length]), intRange_length]

theorem buildTreeGo_isSome (rows cols maxDirs : Int) :
    ∀ (fuel : Nat) (st : TreeBuildState) (root : Point) (g : Rng), RngValid g →
      st.unassigned.length < fuel →
      (buildTreeGo rows cols maxDirs st root g fuel).isSome = true := by
  intro fuel
  induction fuel with
  | zero => intro st root g _ h; exact absurd h (by omega)
  | succ k ih =>
    intro st root g hv hlen
    rw [buildTreeGo]
    by_cases hemp : st.unassigned.isEmpty
    · rw [if_pos hemp]; rfl
    · rw [if_neg hemp]
      by_cases hexp : (st.inTree.filter (expandableFilter st rows cols maxDirs)).isEmpty
      · rw [if_pos hexp]; rfl
      · rw [if_neg hexp]
        dsimp only []
        have hexpne : st.inTree.filter (expandableFilter st rows cols maxDirs) ≠ [] := by
          intro hc
          rw [hc] at hexp
          exact hexp rfl
        have hpmem := chooseRandom_mem _ g hv hexpne
        have hpfilter := (List.mem_filter.mp hpmem).2
        cases hparent : alGet st.pointByKey
            (chooseRandom (st.inTree.filter (expandableFilter st rows cols maxDirs)) g).1 with
        | none => rfl
        | some parent =>
          dsimp only []
          have hany : (getNeighborEntries parent.row parent.col rows cols).any
              (fun neighbor => memB neighbor.key st.unassigned) = true := by
            rw [expandableFilter] at hpfilter
            rw [hparent] at hpfilter
            by_cases hcond : maxDirs ≤ (alGet st.outCount
                (chooseRandom (st.inTree.filter (expandableFilter st rows cols maxDirs)) g).1).getD 0
            · rw [if_pos hcond] at hpfilter
              cases hpfilter
            · rw [if_neg hcond] at hpfilter
              exact hpfilter
          obtain ⟨nb, hnbmem, hnbkey⟩ := List.any_eq_true.mp hany
          have hcandne : (getNeighborEntries parent.row parent.col rows cols).filter
              (fun neighbor => memB neighbor.key st.unassigned) ≠ [] :=
            List.ne_nil_of_mem (List.mem_filter.mpr ⟨hnbmem, hnbkey⟩)
          rw [if_neg (by
            intro hc
            exact hcandne (List.isEmpty_iff.mp hc))]
          have hcmem := chooseRandom_mem _
            ((chooseRandom (st.inTree.filter (expandableFilter st rows cols maxDirs)) g).2)
            (rngValid_tail g hv) hcandne
          cases hchild : alGet st.pointByKey (chooseRandom
              ((getNeighborEntries parent.row parent.col rows cols).filter
                (fun neighbor => memB neighbor.key st.unassigned))
              (chooseRandom (st.inTree.filter (expandableFilter st rows cols maxDirs)) g).2).1.key with
          | none => rfl
          | some child =>
            dsimp only []
            apply ih
            · exact rngValid_tail _ (rngValid_tail g hv)
            · show (eraseSet st.unassigned _).length < k
              have hkeymem := (List.mem_filter.mp hcmem).2
              rw [memB_iff_mem] at hkeymem
              have hdec := eraseSet_length_of_mem st.unassigned _ hkeymem
              have hne : st.unassigned ≠ [] := by
                intro hc
                rw [hc] at hemp
                exact hemp rfl
              have hpos : 0 < st.unassigned.length := List.length_pos.mpr hne
              omega

theorem buildRandomGrowthTreeO_isSome (rows cols maxDirs : Int) (g : Rng) (hv : RngValid g) :
    (buildRandomGrowthTreeO rows cols maxDirs g).isSome = true := by
  rw [buildRandomGrowthTreeO]
  by_cases hpts : (buildAllPoints rows cols).isEmpty
  · rw [if_pos hpts]; rfl
  · rw [if_neg hpts]
    dsimp only []
    apply buildTreeGo_isSome rows cols maxDirs _ _ _ _ (rngValid_tail g hv)
    show (eraseSet (alKeys (alFromPairs ((buildAllPoints rows cols).map
      (fun p => (coordKey p.row p.col, p))))) _).length < rows.toNat * cols.toNat + 1
    have h1 := eraseSet_length_le (alKeys (alFromPairs ((buildAllPoints rows cols).map
      (fun p => (coordKey p.row p.col, p)))))
      (coordKey (chooseRandom (buildAllPoints rows cols) g).1.row
        (chooseRandom (buildAllPoints rows cols) g).1.col)
    have h2 : (alKeys (alFromPairs ((buildAllPoints rows cols).map
        (fun p => (coordKey p.row p.col, p))))).length ≤ rows.toNat * cols.toNat := by
      rw [alKeys, List.length_map]
      refine le_trans (alFromPairs_length_le _) ?_
      rw [List.length_map, buildAllPoints_length]
    omega

/-- Claim C4: the engine's loops terminate within their wired fuel, so
`createPuzzle` always returns a `PuzzleState`: (a) for every valid rng the
growth-tree expansion loop either returns null or assigns a new cell each
iteration, finishing within one step per grid cell; (b) every wave of
`simulateAttempt` removes at least one alive block, so the wave loop ends
within one step per block; (c) every ray cast leaves the grid within
rows + cols steps.  The retry loop itself is a bounded 220-iteration
recursion by construction. -/
theorem claimC4_termination :
    (∀ (rows cols maxDirs : Int) (g : Rng), RngValid g →
      (buildRandomGrowthTreeO rows cols maxDirs g).isSome = true) ∧
    (∀ (layoutById aliveById : AList String ArrowBlock) (byCoord : AList (Int × Int) String)
      (frontier : List String) (rows cols : Int),
      (simulateLoopO layoutById aliveById byCoord frontier rows cols
        (aliveById.length + 1)).isSome = true) ∧
    (∀ (block : ArrowBlock) (dir : ArrowDir) (byCoord : AList (Int × Int) String)
      (rows cols : Int), (castNearestO block dir byCoord rows cols).isSome = true) := by
  refine ⟨?_, ?_, castNearestO_isSome⟩
  · intro rows cols maxDirs g hv
    exact buildRandomGrowthTreeO_isSome rows cols maxDirs g hv
  · intro layoutById aliveById byCoord frontier rows cols
    exact simulateLoopO_isSome layoutById rows cols (aliveById.length + 1) aliveById byCoord
      frontier (Nat.lt_succ_self _)

/-! ## Claim C1: does the designated start always clear the board?

The accepted and fallback return paths of `createPuzzle` re-verify the
designated start, so they always satisfy the property.  The emergency path
is dead code for the five shipped profiles: its fixed-sample growth walk
(`maxDirs = 1`, constant rng 0.5) strands one cell on every grid size, so
`emergencyTree` is always null.  The last-resort path, however, performs
no verification, and its deterministic single-arrow layout is not
solvable from `basicBlocks[0]`; a periodic rng whose 39-sample period
dead-ends the growth walk makes all 220 attempts fail identically and
reaches that path, refuting the claim as stated. -/

unseal Rat.ofScientific Rat.mul Rat.add Rat.sub Rat.inv in
theorem emergencyTreeNone5 : (buildRandomGrowthTree 5 5 1 (fun _ => 0.5)).1 = none := by
  decide

unseal Rat.ofScientific Rat.mul Rat.add Rat.sub Rat.inv in
theorem emergencyTreeNone6 : (buildRandomGrowthTree 6 6 1 (fun _ => 0.5)).1 = none := by
  decide

unseal Rat.ofScientific Rat.mul Rat.add Rat.sub Rat.inv in
theorem emergencyTreeNone7 : (buildRandomGrowthTree 7 7 1 (fun _ => 0.5)).1 = none := by
  decide

unseal Rat.ofScientific Rat.mul Rat.add Rat.sub Rat.inv in
theorem emergencyTreeNone8 : (buildRandomGrowthTree 8 8 1 (fun _ => 0.5)).1 = none := by
  decide

unseal Rat.ofScientific Rat.mul Rat.add Rat.sub Rat.inv in
theorem emergencyTreeNone9 : (buildRandomGrowthTree 9 9 1 (fun _ => 0.5)).1 = none := by
  decide

theorem createPuzzleGo_solves (difficulty : DifficultyId) (serial : Nat)
    (config : DifficultyConfig)
    (hem : (buildRandomGrowthTree config.rows config.cols 1 (fun _ => 0.5)).1 = none) :
    ∀ (n : Nat) (fb : Option FallbackInfo) (g : Rng),
      (∀ f, fb = some f →
        (simulateAttempt f.blocks f.solutionStartId config.rows config.cols).success = true) →
      ((createPuzzleGo difficulty serial config n fb g).2 = RetPath.lastResort ∨
        (simulateAttempt (createPuzzleGo difficulty serial config n fb g).1.initialBlocks
          (createPuzzleGo difficulty serial config n fb g).1.solutionStartId
          (createPuzzleGo difficulty serial config n fb g).1.rows
          (createPuzzleGo difficulty serial config n fb g).1.cols).success = true) := by
  intro n
  induction n with
  | zero =>
    intro fb g hfb
    rw [createPuzzleGo, afterLoop.eq_def]
    cases hfbv : fb with
    | some f =>
      right
      exact hfb f hfbv
    | none =>
      rw [hem]
      left
      rfl
  | succ n ih =>
    intro fb g hfb
    rw [createPuzzleGo]
    cases hbuilt : (buildRandomGrowthTree config.rows config.cols config.maxDirs g).1 with
    | none =>
      dsimp only []
      exact ih fb _ hfb
    | some tree =>
      dsimp only []
      by_cases hval : (simulateAttempt
          (createSparseBlocksFromTree tree serial config
            (buildRandomGrowthTree config.rows config.cols config.maxDirs g).2).1
          (idOf serial tree.root.row tree.root.col) config.rows config.cols).success = true
      · rw [if_pos hval]
        by_cases hwin : (collectWinningStarts
            (createSparseBlocksFromTree tree serial config
              (buildRandomGrowthTree config.rows config.cols config.maxDirs g).2).1
            config.rows config.cols WINNER_SCAN_STOP).length ≤ TARGET_MAX_WINNERS
        · rw [if_pos hwin]
          right
          exact hval
        · rw [if_neg hwin]
          refine ih _ _ ?_
          intro f hf
          cases hfbv : fb with
          | none =>
            rw [hfbv] at hf
            have hfeq := Option.some.inj hf
            rw [← hfeq]
            exact hval
          | some f0 =>
            rw [hfbv] at hf
            dsimp only [] at hf
            by_cases hcnt : (collectWinningStarts
                (createSparseBlocksFromTree tree serial config
                  (buildRandomGrowthTree config.rows config.cols config.maxDirs g).2).1
                config.rows config.cols WINNER_SCAN_STOP).length < f0.winnerCount
            · rw [if_pos hcnt] at hf
              have hfeq := Option.some.inj hf
              rw [← hfeq]
              exact hval
            · rw [if_neg hcnt] at hf
              rw [← hfbv] at hf
              exact hfb f hf
      · rw [if_neg hval]
        exact ih fb _ hfb

/-- Claim C1, amended: for every difficulty, rng stream and serial, either
`createPuzzle` returned through the unverified last-resort path, or the
returned instance's `solutionStartId` clears the whole board.  The
accepted and fallback paths re-verify; the emergency path never returns
for the shipped profiles because its fixed-sample growth walk always
dead-ends. -/
theorem claimC1_amended (difficulty : DifficultyId) (g : Rng) (serial : Nat) :
    (createPuzzleEx difficulty g serial).2 = RetPath.lastResort ∨
    (simulateAttempt (createPuzzle difficulty g serial).initialBlocks
      (createPuzzle difficulty g serial).solutionStartId
      (createPuzzle difficulty g serial).rows
      (createPuzzle difficulty g serial).cols).success = true := by
  have hem : (buildRandomGrowthTree (DIFFICULTY_CONFIGS difficulty).rows
      (DIFFICULTY_CONFIGS difficulty).cols 1 (fun _ => 0.5)).1 = none := by
    cases difficulty with
    | easy => exact emergencyTreeNone5
    | normal => exact emergencyTreeNone6
    | hard => exact emergencyTreeNone7
    | expert => exact emergencyTreeNone8
    | master => exact emergencyTreeNone9
  exact createPuzzleGo_solves difficulty serial (DIFFICULTY_CONFIGS difficulty) hem
    GENERATE_RETRIES none g (fun f hf => by cases hf)

unseal Rat.ofScientific Rat.mul Rat.add Rat.sub Rat.inv in
theorem rngSeq_valid : ∀ q ∈ rngSeqList, 0 ≤ q ∧ q < 1 := by decide

theorem rngBad_valid : RngValid rngBad := by
  intro n
  show 0 ≤ rngSeqList.getD (n % 39) 0 ∧ rngSeqList.getD (n % 39) 0 < 1
  rw [List.getD_eq_getD_get?]
  cases hq : rngSeqList.get? (n % 39) with
  | some q =>
    have hmem : q ∈ rngSeqList := List.get?_mem hq
    exact rngSeq_valid q hmem
  | none =>
    constructor
    · exact le_refl 0
    · norm_num

set_option maxHeartbeats 4000000 in
unseal Rat.ofScientific Rat.mul Rat.add Rat.sub Rat.inv in
theorem rngBad_treeFailEval :
    buildRandomGrowthTreeO 5 5 2 rngBad = some (none, advanceRng rngBad 39) := rfl

theorem advanceRngBad : advanceRng rngBad 39 = rngBad := by
  funext j
  show rngSeqList.getD ((j + 39) % 39) 0 = rngSeqList.getD (j % 39) 0
  rw [Nat.add_mod_right]

theorem rngBad_treeFail : buildRandomGrowthTree 5 5 2 rngBad = (none, rngBad) := by
  rw [buildRandomGrowthTree, rngBad_treeFailEval, advanceRngBad]
  rfl

theorem rngBad_loopCollapse :
    ∀ (n : Nat) (fb : Option FallbackInfo),
      createPuzzleGo DifficultyId.easy 1 (DIFFICULTY_CONFIGS .easy) n fb rngBad =
        afterLoop DifficultyId.easy 1 (DIFFICULTY_CONFIGS .easy) fb
  | 0, fb => rfl
  | n + 1, fb => by
    rw [createPuzzleGo]
    rw [show (DIFFICULTY_CONFIGS DifficultyId.easy).rows = 5 from rfl,
        show (DIFFICULTY_CONFIGS DifficultyId.easy).cols = 5 from rfl,
        show (DIFFICULTY_CONFIGS DifficultyId.easy).maxDirs = 2 from rfl,
        rngBad_treeFail]
    exact rngBad_loopCollapse n fb

theorem rngBad_lastResort :
    createPuzzle DifficultyId.easy rngBad 1 =
      (afterLoop DifficultyId.easy 1 (DIFFICULTY_CONFIGS .easy) none).1 := by
  rw [createPuzzle, createPuzzleEx, rngBad_loopCollapse]

unseal Rat.ofScientific Rat.mul Rat.add Rat.sub Rat.inv in
theorem lastResort_unsolvable :
    (simulateAttempt
      (afterLoop DifficultyId.easy 1 (DIFFICULTY_CONFIGS .easy) none).1.initialBlocks
      (afterLoop DifficultyId.easy 1 (DIFFICULTY_CONFIGS .easy) none).1.solutionStartId
      (afterLoop DifficultyId.easy 1 (DIFFICULTY_CONFIGS .easy) none).1.rows
      (afterLoop DifficultyId.easy 1 (DIFFICULTY_CONFIGS .easy) none).1.cols).success = false := by
  decide

/-- Counterexample to claim C1 as stated: with the valid periodic rng
`rngBad`, every one of the 220 generation attempts for the easy profile
fails tree construction, the fallback stays empty, the emergency tree
build fails, and the returned last-resort instance's designated start
does not clear the board. -/
theorem claimC1_counterexample :
    ¬ (∀ (difficulty : DifficultyId) (g : Rng) (serial : Nat), RngValid g →
      (simulateAttempt (createPuzzle difficulty g serial).initialBlocks
        (createPuzzle difficulty g serial).solutionStartId
        (createPuzzle difficulty g serial).rows
        (createPuzzle difficulty g serial).cols).success = true) := by
  intro h
  have hinst := h DifficultyId.easy rngBad 1 rngBad_valid
  rw [rngBad_lastResort] at hinst
  rw [lastResort_unsolvable] at hinst
  exact Bool.false_ne_true hinst

/-! ## Claim C3: characterisation of `castNearest`

The claim as stated is refuted by JS truthiness: `if (hitId)` treats the
empty string as a miss, so a cell occupied by the id `""` is stepped over
rather than reported as the hit.  For indexes whose ids are all non-empty
(which holds for every layout the game builds) the characterisation is
proved. -/

theorem getLastQ_cons_ne {α : Type} (a : α) (l : List α) (h : l ≠ []) :
    (a :: l).getLast? = l.getLast? := by
  cases l with
  | nil => exact absurd rfl h
  | cons b rest => rfl

theorem dropLast_cons_ne {α : Type} (a : α) (l : List α) (h : l ≠ []) :
    (a :: l).dropLast = a :: l.dropLast := by
  cases l with
  | nil => exact absurd rfl h
  | cons b rest => rfl

theorem castRay_char (byCoord : AList (Int × Int) String) (rows cols dr dc : Int)
    (hne : ∀ p t, alGet byCoord p = some t → t ≠ "") :
    ∀ (fuel : Nat) (r c : Int) (out : Option String × List (Int × Int)),
      castRay byCoord rows cols dr dc r c fuel = some out →
      (out.2 = (List.range out.2.length).map
        (fun k : Nat => (r + dr * (k : Int), c + dc * (k : Int)))) ∧
      (∀ pc ∈ out.2, inBounds pc.1 pc.2 rows cols = true) ∧
      (match out.1 with
       | some t =>
          out.2 ≠ [] ∧ (∃ p, out.2.getLast? = some p ∧ alGet byCoord p = some t) ∧
          (∀ pc ∈ out.2.dropLast, alGet byCoord pc = none)
       | none =>
          (∀ pc ∈ out.2, alGet byCoord pc = none) ∧
          (match out.2.getLast? with
           | some p => inBounds (p.1 + dr) (p.2 + dc) rows cols = false
           | none => inBounds r c rows cols = false)) := by
  intro fuel
  induction fuel with
  | zero => intro r c out h; cases h
  | succ k ih =>
    intro r c out h
    rw [castRay] at h
    by_cases hin : inBounds r c rows cols = true
    · rw [if_pos hin] at h
      cases hget : alGet byCoord (coordKey r c) with
      | some hitId =>
        rw [hget] at h
        dsimp only [] at h
        have hid : hitId ≠ "" := hne (coordKey r c) hitId hget
        rw [if_neg hid] at h
        have hout : out = (some hitId, [(r, c)]) := (Option.some.inj h).symm
        rw [hout]
        dsimp only []
        refine ⟨?_, ?_, ?_⟩
        · show [(r, c)] = (List.range 1).map
            (fun j : Nat => (r + dr * (j : Int), c + dc * (j : Int)))
          simp [List.range_succ]
        · intro pc hpc
          have : pc = (r, c) := by
            cases hpc with
            | head => rfl
            | tail _ h2 => cases h2
          rw [this]
          exact hin
        · show [(r, c)] ≠ [] ∧
            (∃ p, ([(r, c)] : List (Int × Int)).getLast? = some p ∧
              alGet byCoord p = some hitId) ∧
            (∀ pc ∈ ([(r, c)] : List (Int × Int)).dropLast, alGet byCoord pc = none)
          refine ⟨List.cons_ne_nil _ _, ⟨(r, c), ?_, hget⟩, ?_⟩
          · rfl
          · intro pc hpc
            cases hpc
      | none =>
        rw [hget] at h
        dsimp only [] at h
        obtain ⟨out1, hrec, hmapped⟩ := Option.map_eq_some'.mp h
        have hprops := ih (r + dr) (c + dc) out1 hrec
        have hout2 : out.2 = (r, c) :: out1.2 := by rw [← hmapped]
        have hout1 : out.1 = out1.1 := by rw [← hmapped]
        refine ⟨?_, ?_, ?_⟩
        · rw [hout2, List.length_cons, List.range_succ_eq_map, List.map_cons, List.map_map]
          have hhead : (r + dr * ((0 : Nat) : Int), c + dc * ((0 : Nat) : Int)) = (r, c) := by
            simp
          rw [hhead]
          have hfun : ((fun j : Nat => (r + dr * (j : Int), c + dc * (j : Int))) ∘ Nat.succ) =
              (fun j : Nat => ((r + dr) + dr * (j : Int), (c + dc) + dc * (j : Int))) := by
            funext j
            show (r + dr * ((j + 1 : Nat) : Int), c + dc * ((j + 1 : Nat) : Int)) =
              ((r + dr) + dr * (j : Int), (c + dc) + dc * (j : Int))
            push_cast
            simp only [Prod.mk.injEq]
            constructor <;> ring
          rw [hfun, ← hprops.1]
        · intro pc hpc
          rw [hout2] at hpc
          cases hpc with
          | head => exact hin
          | tail _ h2 => exact hprops.2.1 pc h2
        · rw [hout1, hout2]
          cases hto : out1.1 with
          | some t =>
            rw [hto] at hprops
            show ((r, c) :: out1.2) ≠ [] ∧
              (∃ p, ((r, c) :: out1.2).getLast? = some p ∧ alGet byCoord p = some t) ∧
              (∀ pc ∈ ((r, c) :: out1.2).dropLast, alGet byCoord pc = none)
            obtain ⟨hnil, ⟨p, hlast, hpget⟩, hprior⟩ := hprops.2.2
            refine ⟨List.cons_ne_nil _ _, ⟨p, ?_, hpget⟩, ?_⟩
            · rw [getLastQ_cons_ne (r, c) out1.2 hnil]
              exact hlast
            · rw [dropLast_cons_ne (r, c) out1.2 hnil]
              intro pc hpc
              cases hpc with
              | head => exact hget
              | tail _ h2 => exact hprior pc h2
          | none =>
            rw [hto] at hprops
            show (∀ pc ∈ ((r, c) :: out1.2), alGet byCoord pc = none) ∧
              (match ((r, c) :: out1.2).getLast? with
               | some p => inBounds (p.1 + dr) (p.2 + dc) rows cols = false
               | none => inBounds r c rows cols = false)
            obtain ⟨hall, hexit⟩ := hprops.2.2
            refine ⟨?_, ?_⟩
            · intro pc hpc
              cases hpc with
              | head => exact hget
              | tail _ h2 => exact hall pc h2
            · cases hc1 : out1.2 with
              | nil =>
                rw [hc1] at hexit
                show inBounds (r + dr) (c + dc) rows cols = false
                exact hexit
              | cons q qs =>
                rw [hc1] at hexit
                rw [getLastQ_cons_ne (r, c) (q :: qs) (List.cons_ne_nil _ _)]
                exact hexit
    · rw [if_neg hin] at h
      have hout : out = (none, []) := (Option.some.inj h).symm
      rw [hout]
      refine ⟨rfl, ?_, ?_⟩
      · intro pc hpc
        cases hpc
      · show (∀ pc ∈ ([] : List (Int × Int)), alGet byCoord pc = none) ∧
          inBounds r c rows cols = false
        refine ⟨?_, ?_⟩
        · intro pc hpc
          cases hpc
        · cases hcase : inBounds r c rows cols with
          | false => rfl
          | true => exact absurd hcase hin

/-- Claim C3, amended: for every block, direction, bounds and coordinate
index all of whose ids are non-empty strings, the cast produced by
`castNearest` satisfies the claimed characterisation: rayCells are exactly
the consecutive in-bounds cells stepped through from the block, the hit is
the first occupied cell, and toId is null exactly on leaving the grid
without a hit. -/
theorem claimC3_amended (block : ArrowBlock) (dir : ArrowDir)
    (byCoord : AList (Int × Int) String) (rows cols : Int)
    (hne : ∀ p t, alGet byCoord p = some t → t ≠ "") :
    castNearestSpec block dir byCoord rows cols := by
  rw [castNearestSpec]
  have hsome := castNearestO_isSome block dir byCoord rows cols
  rw [castNearestO, isSome_omap] at hsome
  cases hray : castRay byCoord rows cols (DIR_VECTORS dir).1 (DIR_VECTORS dir).2
      (block.row + (DIR_VECTORS dir).1) (block.col + (DIR_VECTORS dir).2)
      (rows.toNat + cols.toNat + 1) with
  | none => rw [hray] at hsome; cases hsome
  | some out =>
    have hcast : castNearest block dir byCoord rows cols =
        { dir := dir, toId := out.1, rayCells := out.2 } := by
      rw [castNearest, castNearestO, hray]
      rfl
    have hprops := castRay_char byCoord rows cols (DIR_VECTORS dir).1 (DIR_VECTORS dir).2 hne
      (rows.toNat + cols.toNat + 1) (block.row + (DIR_VECTORS dir).1)
      (block.col + (DIR_VECTORS dir).2) out hray
    rw [hcast]
    dsimp only []
    refine ⟨?_, hprops.2.1, ?_⟩
    · show out.2 = (List.range out.2.length).map
        (fun k : Nat => (block.row + (DIR_VECTORS dir).1 * ((k : Int) + 1),
          block.col + (DIR_VECTORS dir).2 * ((k : Int) + 1)))
      have hfun : (fun k : Nat => (block.row + (DIR_VECTORS dir).1 * ((k : Int) + 1),
          block.col + (DIR_VECTORS dir).2 * ((k : Int) + 1))) =
          (fun k : Nat => ((block.row + (DIR_VECTORS dir).1) + (DIR_VECTORS dir).1 * (k : Int),
            (block.col + (DIR_VECTORS dir).2) + (DIR_VECTORS dir).2 * (k : Int))) := by
        funext k
        simp only [Prod.mk.injEq]
        constructor <;> ring
      rw [hfun]
      exact hprops.1
    · exact hprops.2.2

/-- Witness for claim C3 at a concrete input. -/
theorem claimC3_witness :
    castNearestSpec ⟨"src", 0, 0, [.E]⟩ ArrowDir.E [((0, 1), "tgt")] 1 2 :=
  claimC3_amended ⟨"src", 0, 0, [.E]⟩ ArrowDir.E [((0, 1), "tgt")] 1 2
    (by
      intro p t h
      rw [alGet] at h
      by_cases hp : ((0 : Int), (1 : Int)) = p
      · rw [if_pos hp] at h
        have ht : t = "tgt" := (Option.some.inj h).symm
        rw [ht]
        decide
      · rw [if_neg hp, alGet] at h
        cases h)

/-- Counterexample to claim C3 as stated: a coordinate index may carry the
empty string as an id; `castNearest` steps over such a cell because JS
`if (hitId)` treats `""` as falsy, so the first occupied in-bounds cell is
not reported as the hit. -/
theorem claimC3_counterexample :
    ¬ (∀ (block : ArrowBlock) (dir : ArrowDir) (byCoord : AList (Int × Int) String)
        (rows cols : Int), castNearestSpec block dir byCoord rows cols) := by
  intro h
  have hinst := h ⟨"src", 0, 0, [.E]⟩ ArrowDir.E [((0, 1), "")] 1 2
  rw [castNearestSpec] at hinst
  have hc : castNearest ⟨"src", 0, 0, [.E]⟩ ArrowDir.E [((0, 1), "")] 1 2 =
      { dir := ArrowDir.E, toId := none, rayCells := [(0, 1)] } := by decide
  rw [hc] at hinst
  have hmem : ((0 : Int), (1 : Int)) ∈
      ({ dir := ArrowDir.E, toId := none, rayCells := [(0, 1)] } : DirectionCast).rayCells :=
    List.mem_cons_self _ _
  have hnone := hinst.2.2.1 ((0 : Int), (1 : Int)) hmem
  have hsome : alGet ([((0, 1), "")] : AList (Int × Int) String) ((0 : Int), (1 : Int)) =
      some "" := by decide
  rw [hsome] at hnone
  cases hnone

/-- Witness for claim C4 at concrete inputs. -/
theorem claimC4_witness :
    (buildRandomGrowthTreeO 2 2 2 (fun _ => 0) ).isSome = true ∧
    (simulateLoopO [] [("x", ⟨"x", 0, 0, [.E]⟩)] [] ["x"] 1 1
      ([("x", (⟨"x", 0, 0, [.E]⟩ : ArrowBlock))].length + 1)).isSome = true ∧
    (castNearestO ⟨"w", 0, 0, [.E]⟩ .E [] 1 1).isSome = true :=
  ⟨claimC4_termination.1 2 2 2 (fun _ => 0)
      (fun _ => ⟨le_refl 0, by norm_num⟩),
    claimC4_termination.2.1 [] [("x", ⟨"x", 0, 0, [.E]⟩)] [] ["x"] 1 1,
    claimC4_termination.2.2 ⟨"w", 0, 0, [.E]⟩ .E [] 1 1⟩

/-! ## Wave-removal discipline (claim C2) -/

theorem bnotTrue : ∀ {x : Bool}, (!x) = true → x = false := by
  intro x h
  cases x
  · rfl
  · exact absurd h (by decide)

theorem memB_append {α : Type} [DecidableEq α] (a : α) :
    ∀ l1 l2 : List α, memB a (l1 ++ l2) = (memB a l1 || memB a l2) := by
  intro l1
  induction l1 with
  | nil => intro l2; simp [memB]
  | cons b rest ih =>
    intro l2
    rw [List.cons_append, memB, memB]
    by_cases hb : b = a
    · rw [if_pos hb, if_pos hb]
      rfl
    · rw [if_neg hb, if_neg hb]
      exact ih l2

theorem memB_singleton {α : Type} [DecidableEq α] (a x : α) :
    memB a [x] = decide (x = a) := by
  by_cases h : x = a
  · rw [memB, if_pos h, decide_eq_true h]
  · rw [memB, if_neg h, decide_eq_false h]
    rfl

theorem nodupMapInj {α β : Type} {f : α → β} :
    ∀ {l : List α}, (l.map f).Nodup → ∀ {x}, x ∈ l → ∀ {y}, y ∈ l → f x = f y → x = y := by
  intro l
  induction l with
  | nil => intro _ x hx; cases hx
  | cons a rest ih =>
    intro hnd x hx y hy hf
    rw [List.map_cons] at hnd
    have hnc := List.nodup_cons.mp hnd
    cases hx with
    | head =>
      cases hy with
      | head => rfl
      | tail _ hy2 =>
        exfalso
        have hmem : f y ∈ rest.map f := List.mem_map.mpr ⟨y, hy2, rfl⟩
        rw [← hf] at hmem
        exact hnc.1 hmem
    | tail _ hx2 =>
      cases hy with
      | head =>
        exfalso
        have hmem : f x ∈ rest.map f := List.mem_map.mpr ⟨x, hx2, rfl⟩
        rw [hf] at hmem
        exact hnc.1 hmem
      | tail _ hy2 => exact ih hnc.2 hx2 hy2 hf

theorem alGet_append_none {κ ν : Type} [DecidableEq κ] :
    ∀ (l1 l2 : AList κ ν) (k : κ), alGet l1 k = none →
      alGet (l1 ++ l2) k = alGet l2 k := by
  intro l1
  induction l1 with
  | nil => intro l2 k _; rfl
  | cons kv rest ih =>
    intro l2 k h
    rw [alGet] at h
    by_cases hk : kv.1 = k
    · rw [if_pos hk] at h; cases h
    · rw [if_neg hk] at h
      rw [List.cons_append, alGet, if_neg hk]
      exact ih l2 k h

theorem alSet_append {κ ν : Type} [DecidableEq κ] :
    ∀ (l : AList κ ν) (k : κ) (v : ν), alGet l k = none → alSet l k v = l ++ [(k, v)] := by
  intro l
  induction l with
  | nil => intro k v _; rfl
  | cons kv rest ih =>
    intro k v h
    rw [alGet] at h
    by_cases hk : kv.1 = k
    · rw [if_pos hk] at h; cases h
    · rw [if_neg hk] at h
      rw [alSet, if_neg hk, ih k v h]
      rfl

theorem foldl_alSet_append {κ ν : Type} [DecidableEq κ] :
    ∀ (l : List (κ × ν)) (acc : AList κ ν),
      (∀ kv ∈ l, alGet acc kv.1 = none) → (l.map Prod.fst).Nodup →
      l.foldl (fun m kv => alSet m kv.1 kv.2) acc = acc ++ l := by
  intro l
  induction l with
  | nil => intro acc _ _; rw [List.foldl_nil, List.append_nil]
  | cons kv rest ih =>
    intro acc hget hnd
    rw [List.map_cons] at hnd
    have hnc := List.nodup_cons.mp hnd
    rw [List.foldl_cons, alSet_append acc kv.1 kv.2 (hget kv (List.mem_cons_self kv rest))]
    rw [ih (acc ++ [(kv.1, kv.2)]) ?_ hnc.2]
    · rw [List.append_assoc]
      rfl
    · intro kv2 hm
      rw [alGet_append_none acc _ kv2.1 (hget kv2 (List.mem_cons_of_mem kv hm))]
      have hne : (kv.1 : κ) ≠ kv2.1 := by
        intro he
        have : kv2.1 ∈ rest.map Prod.fst := List.mem_map.mpr ⟨kv2, hm, rfl⟩
        rw [← he] at this
        exact hnc.1 this
      show alGet [(kv.1, kv.2)] kv2.1 = none
      rw [alGet, if_neg hne]
      rfl

theorem alFromPairs_eq_self {κ ν : Type} [DecidableEq κ] (l : List (κ × ν))
    (hnd : (l.map Prod.fst).Nodup) : alFromPairs l = l := by
  rw [alFromPairs, foldl_alSet_append l [] (fun kv _ => rfl) hnd]
  rfl

theorem alGet_of_mem_nodup {κ ν : Type} [DecidableEq κ] :
    ∀ (l : AList κ ν) (k : κ) (v : ν), (l.map Prod.fst).Nodup → (k, v) ∈ l →
      alGet l k = some v := by
  intro l
  induction l with
  | nil => intro k v _ hm; cases hm
  | cons kv rest ih =>
    intro k v hnd hm
    rw [List.map_cons] at hnd
    have hnc := List.nodup_cons.mp hnd
    rw [alGet]
    cases hm with
    | head => rw [if_pos rfl]
    | tail _ hm2 =>
      have hk : kv.1 ≠ k := by
        intro he
        have : k ∈ rest.map Prod.fst := List.mem_map.mpr ⟨(k, v), hm2, rfl⟩
        rw [← he] at this
        exact hnc.1 this
      rw [if_neg hk]
      exact ih k v hnc.2 hm2

theorem pairs_keys_nodup {α κ ν : Type} (f : α → κ) (g : α → ν) (l : List α)
    (hnd : (l.map f).Nodup) (p : α → Bool) :
    (((l.filter p).map (fun a => (f a, g a))).map Prod.fst).Nodup := by
  have hmm : ((l.filter p).map (fun a => (f a, g a))).map Prod.fst = (l.filter p).map f := by
    rw [List.map_map]
    rfl
  rw [hmm]
  exact List.Nodup.sublist ((List.filter_sublist l).map f) hnd

theorem alErase_filter_map {α κ ν : Type} [DecidableEq κ]
    (f : α → κ) (g : α → ν) (k : κ) :
    ∀ (l : List α) (p : α → Bool), (((l.filter p).map f).Nodup) →
      alErase ((l.filter p).map (fun a => (f a, g a))) k
        = (l.filter (fun a => p a && !(decide (f a = k)))).map (fun a => (f a, g a)) := by
  intro l
  induction l with
  | nil => intro p _; rfl
  | cons a rest ih =>
    intro p hnd
    rw [List.filter_cons, List.filter_cons]
    by_cases hp : p a = true
    · rw [if_pos hp]
      rw [List.filter_cons, if_pos hp] at hnd
      rw [List.map_cons] at hnd
      have hnc := List.nodup_cons.mp hnd
      by_cases hfa : f a = k
      · have hcond : (p a && !(decide (f a = k))) = false := by
          rw [hp, decide_eq_true hfa]
          rfl
        rw [hcond]
        rw [if_neg (by intro hx; exact absurd hx (by decide) : ¬ (false = true))]
        rw [List.map_cons, alErase, if_pos (by rw [hfa])]
        have hcong : rest.filter p = rest.filter (fun a => p a && !(decide (f a = k))) := by
          apply List.filter_congr
          intro b hb
          cases hpb : p b
          · rfl
          · have hbm : f b ∈ (rest.filter p).map f :=
              List.mem_map.mpr ⟨b, List.mem_filter.mpr ⟨hb, hpb⟩, rfl⟩
            have hbk : f b ≠ k := by
              intro he
              rw [he, ← hfa] at hbm
              exact hnc.1 hbm
            rw [decide_eq_false hbk]
            rfl
        rw [hcong]
      · have hcond : (p a && !(decide (f a = k))) = true := by
          rw [hp, decide_eq_false hfa]
          rfl
        rw [hcond, if_pos rfl]
        rw [List.map_cons, List.map_cons, alErase, if_neg hfa]
        rw [ih p hnc.2]
    · rw [if_neg hp]
      rw [List.filter_cons, if_neg hp] at hnd
      have hpa : p a = false := by
        cases hpa2 : p a
        · rfl
        · exact absurd hpa2 hp
      have hcond : (p a && !(decide (f a = k))) = false := by
        rw [hpa]
        rfl
      rw [hcond]
      rw [if_neg (by intro hx; exact absurd hx (by decide) : ¬ (false = true))]
      exact ih p hnd

theorem aliveAfterRemoval_eq_list (blocks : List ArrowBlock)
    (hids : (blocks.map (fun b => b.id)).Nodup) (removed : List String) :
    aliveAfterRemoval blocks removed
      = (blocks.filter (fun b => !(memB b.id removed))).map (fun b => (b.id, b)) := by
  rw [aliveAfterRemoval]
  exact alFromPairs_eq_self _ (pairs_keys_nodup (fun b => b.id) (fun b => b) blocks hids _)

theorem indexAfterRemoval_eq_list (blocks : List ArrowBlock)
    (hcoords : (blocks.map (fun b => coordKey b.row b.col)).Nodup) (removed : List String) :
    indexAfterRemoval blocks removed
      = (blocks.filter (fun b => !(memB b.id removed))).map
          (fun b => (coordKey b.row b.col, b.id)) := by
  rw [indexAfterRemoval]
  exact alFromPairs_eq_self _
    (pairs_keys_nodup (fun b => coordKey b.row b.col) (fun b => b.id) blocks hcoords _)

theorem alGet_aliveAfterRemoval {blocks : List ArrowBlock}
    (hids : (blocks.map (fun b => b.id)).Nodup) (R : List String) (id : String)
    (block : ArrowBlock) (h : alGet (aliveAfterRemoval blocks R) id = some block) :
    block ∈ blocks ∧ block.id = id ∧ memB block.id R = false := by
  rw [aliveAfterRemoval_eq_list blocks hids R] at h
  have hmem := alGet_some_mem _ id block h
  rw [List.mem_map] at hmem
  obtain ⟨b, hbf, hbe⟩ := hmem
  have hb2 : b = block := congrArg Prod.snd hbe
  have hb1 : b.id = id := congrArg Prod.fst hbe
  subst hb2
  have hf := List.mem_filter.mp hbf
  exact ⟨hf.1, hb1, bnotTrue hf.2⟩

theorem alGet_layout_self (blocks : List ArrowBlock)
    (hids : (blocks.map (fun b => b.id)).Nodup) :
    alFromPairs (blocks.map (fun b => (b.id, b))) = blocks.map (fun b => (b.id, b)) := by
  apply alFromPairs_eq_self
  rw [List.map_map]
  exact hids

theorem alGet_layout_of {blocks : List ArrowBlock}
    (hids : (blocks.map (fun b => b.id)).Nodup) (block : ArrowBlock) (hb : block ∈ blocks) :
    alGet (alFromPairs (blocks.map (fun b => (b.id, b)))) block.id = some block := by
  rw [alGet_layout_self blocks hids]
  apply alGet_of_mem_nodup
  · rw [List.map_map]
    exact hids
  · exact List.mem_map.mpr ⟨block, hb, rfl⟩

theorem alGet_layout_inv {blocks : List ArrowBlock}
    (hids : (blocks.map (fun b => b.id)).Nodup) (id : String) (block : ArrowBlock)
    (h : alGet (alFromPairs (blocks.map (fun b => (b.id, b)))) id = some block) :
    block ∈ blocks ∧ block.id = id := by
  rw [alGet_layout_self blocks hids] at h
  have hmem := alGet_some_mem _ id block h
  rw [List.mem_map] at hmem
  obtain ⟨b, hbm, hbe⟩ := hmem
  have hb2 : b = block := congrArg Prod.snd hbe
  have hb1 : b.id = id := congrArg Prod.fst hbe
  subst hb2
  exact ⟨hbm, hb1⟩

theorem indexAfterRemoval_some (blocks : List ArrowBlock)
    (hcoords : (blocks.map (fun b => coordKey b.row b.col)).Nodup)
    (removed : List String) (p : Int × Int) (t : String)
    (h : alGet (indexAfterRemoval blocks removed) p = some t) :
    ∃ b, b ∈ blocks ∧ memB b.id removed = false ∧ b.id = t ∧ coordKey b.row b.col = p := by
  rw [indexAfterRemoval_eq_list blocks hcoords removed] at h
  have hmem := alGet_some_mem _ p t h
  rw [List.mem_map] at hmem
  obtain ⟨b, hbf, hbe⟩ := hmem
  have h1 : coordKey b.row b.col = p := congrArg Prod.fst hbe
  have h2 : b.id = t := congrArg Prod.snd hbe
  have hf := List.mem_filter.mp hbf
  exact ⟨b, hf.1, bnotTrue hf.2, h2, h1⟩

theorem indexAfterRemoval_none_iff (blocks : List ArrowBlock)
    (hids : (blocks.map (fun b => b.id)).Nodup)
    (hcoords : (blocks.map (fun b => coordKey b.row b.col)).Nodup)
    (removed : List String) (b : ArrowBlock) (hb : b ∈ blocks) :
    alGet (indexAfterRemoval blocks removed) (coordKey b.row b.col) = none
      ↔ memB b.id removed = true := by
  constructor
  · intro hnone
    cases hmb : memB b.id removed with
    | false =>
      exfalso
      have hmem : (coordKey b.row b.col, b.id) ∈
          (blocks.filter (fun x => !(memB x.id removed))).map
            (fun x => (coordKey x.row x.col, x.id)) :=
        List.mem_map.mpr ⟨b, List.mem_filter.mpr ⟨hb, by rw [hmb]; rfl⟩, rfl⟩
      have hg := alGet_of_mem_nodup _ _ _
        (pairs_keys_nodup (fun x => coordKey x.row x.col) (fun x => x.id) blocks hcoords _) hmem
      rw [← indexAfterRemoval_eq_list blocks hcoords removed] at hg
      rw [hnone] at hg
      cases hg
    | true => rfl
  · intro hmb
    cases hget : alGet (indexAfterRemoval blocks removed) (coordKey b.row b.col) with
    | none => rfl
    | some t =>
      exfalso
      obtain ⟨b2, hb2, hmb2, _, hcoord2⟩ :=
        indexAfterRemoval_some blocks hcoords removed _ _ hget
      have hbb : b2 = b := nodupMapInj hcoords hb2 hb hcoord2
      rw [hbb, hmb] at hmb2
      cases hmb2

theorem castRay_hit (byCoord : AList (Int × Int) String) (rows cols dr dc : Int) :
    ∀ (fuel : Nat) (r c : Int) (out : Option String × List (Int × Int)) (t : String),
      castRay byCoord rows cols dr dc r c fuel = some out → out.1 = some t →
      ∃ p, alGet byCoord p = some t := by
  intro fuel
  induction fuel with
  | zero => intro r c out t h; rw [castRay] at h; cases h
  | succ fuel ih =>
    intro r c out t h ht
    rw [castRay] at h
    by_cases hin : inBounds r c rows cols = true
    · rw [if_pos hin] at h
      cases hget : alGet byCoord (coordKey r c) with
      | some hitId =>
        rw [hget] at h
        dsimp only [] at h
        by_cases hid : hitId = ""
        · rw [if_pos hid] at h
          obtain ⟨out1, hrec, hmapped⟩ := Option.map_eq_some'.mp h
          have h1 : out.1 = out1.1 := by rw [← hmapped]
          exact ih (r + dr) (c + dc) out1 t hrec (by rw [← h1]; exact ht)
        · rw [if_neg hid] at h
          have hout : out = (some hitId, [(r, c)]) := (Option.some.inj h).symm
          rw [hout] at ht
          exact ⟨coordKey r c, by rw [hget, Option.some.inj ht]⟩
      | none =>
        rw [hget] at h
        dsimp only [] at h
        obtain ⟨out1, hrec, hmapped⟩ := Option.map_eq_some'.mp h
        have h1 : out.1 = out1.1 := by rw [← hmapped]
        exact ih (r + dr) (c + dc) out1 t hrec (by rw [← h1]; exact ht)
    · rw [if_neg hin] at h
      have hout : out = (none, []) := (Option.some.inj h).symm
      rw [hout] at ht
      cases ht

theorem castNearest_hit (block : ArrowBlock) (dir : ArrowDir)
    (byCoord : AList (Int × Int) String) (rows cols : Int) (t : String)
    (h : (castNearest block dir byCoord rows cols).toId = some t) :
    ∃ p, alGet byCoord p = some t := by
  rw [castNearest, castNearestO] at h
  cases hray : castRay byCoord rows cols (DIR_VECTORS dir).1 (DIR_VECTORS dir).2
      (block.row + (DIR_VECTORS dir).1) (block.col + (DIR_VECTORS dir).2)
      (rows.toNat + cols.toNat + 1) with
  | none => rw [hray] at h; cases h
  | some out =>
    rw [hray] at h
    rw [Option.map_some', Option.getD_some] at h
    exact castRay_hit byCoord rows cols (DIR_VECTORS dir).1 (DIR_VECTORS dir).2
      (rows.toNat + cols.toNat + 1) _ _ out t hray h

theorem filterMap_map_fromId {α : Type} (F : String → Option α) (fromF : α → String)
    (hinv : ∀ id a, F id = some a → fromF a = id) :
    ∀ cur : List String, (∀ id ∈ cur, (F id).isSome = true) →
      (cur.filterMap F).map fromF = cur := by
  intro cur
  induction cur with
  | nil => intro _; rfl
  | cons id rest ih =>
    intro h
    rw [List.filterMap_cons]
    cases hF : F id with
    | none =>
      exfalso
      have := h id (List.mem_cons_self id rest)
      rw [hF] at this
      cases this
    | some a =>
      rw [List.map_cons, hinv id a hF, ih (fun x hx => h x (List.mem_cons_of_mem id hx))]

theorem removedBefore_zero (waves : List AttemptWave) : removedBefore waves 0 = [] := rfl

theorem removedBefore_cons_succ (w : AttemptWave) (ws : List AttemptWave) (i : Nat) :
    removedBefore (w :: ws) (i + 1) = waveSourceIds w ++ removedBefore ws i := by
  rw [removedBefore, removedBefore, List.take_succ_cons, List.flatMap_cons]

theorem removeFold_char (blocks : List ArrowBlock)
    (hids : (blocks.map (fun b => b.id)).Nodup)
    (hcoords : (blocks.map (fun b => coordKey b.row b.col)).Nodup) :
    ∀ (cur R : List String),
      cur.foldl
        (fun st id =>
          match alGet st.1 id with
          | none => st
          | some block => (alErase st.1 id, alErase st.2 (coordKey block.row block.col)))
        (aliveAfterRemoval blocks R, indexAfterRemoval blocks R)
      = (aliveAfterRemoval blocks (R ++ cur), indexAfterRemoval blocks (R ++ cur)) := by
  intro cur
  induction cur with
  | nil => intro R; rw [List.foldl_nil, List.append_nil]
  | cons id rest ih =>
    intro R
    rw [List.foldl_cons]
    cases hget : alGet (aliveAfterRemoval blocks R) id with
    | none =>
      have hcong : ∀ b ∈ blocks, (!(memB b.id R)) = (!(memB b.id (R ++ [id]))) := by
        intro b hb
        rw [memB_append, memB_singleton]
        cases hmb : memB b.id R with
        | true => rfl
        | false =>
          have hne : b.id ≠ id := by
            intro he
            have hbm : (b.id, b) ∈
                (blocks.filter (fun x => !(memB x.id R))).map (fun x => (x.id, x)) :=
              List.mem_map.mpr ⟨b, List.mem_filter.mpr ⟨hb, by rw [hmb]; rfl⟩, rfl⟩
            have hsome := alGet_of_mem_nodup _ _ _
              (pairs_keys_nodup (fun x => x.id) (fun x => x) blocks hids _) hbm
            rw [← aliveAfterRemoval_eq_list blocks hids R] at hsome
            rw [he] at hsome
            rw [hget] at hsome
            cases hsome
          rw [decide_eq_false (fun he => hne he.symm)]
          rfl
      have hA : aliveAfterRemoval blocks R = aliveAfterRemoval blocks (R ++ [id]) := by
        rw [aliveAfterRemoval, aliveAfterRemoval, List.filter_congr hcong]
      have hI : indexAfterRemoval blocks R = indexAfterRemoval blocks (R ++ [id]) := by
        rw [indexAfterRemoval, indexAfterRemoval, List.filter_congr hcong]
      dsimp only []
      rw [hA, hI, List.append_cons R id rest]
      exact ih (R ++ [id])
    | some block =>
      obtain ⟨hbmem, hbid, hbR⟩ := alGet_aliveAfterRemoval hids R id block hget
      have hcongA : ∀ b ∈ blocks,
          ((!(memB b.id R)) && !(decide (b.id = id))) = (!(memB b.id (R ++ [id]))) := by
        intro b hb
        rw [memB_append, memB_singleton, Bool.not_or]
        have : decide (id = b.id) = decide (b.id = id) :=
          decide_eq_decide.mpr ⟨fun he => he.symm, fun he => he.symm⟩
        rw [this]
      have hcongI : ∀ b ∈ blocks,
          ((!(memB b.id R)) && !(decide (coordKey b.row b.col = coordKey block.row block.col)))
            = (!(memB b.id (R ++ [id]))) := by
        intro b hb
        have hiff : (coordKey b.row b.col = coordKey block.row block.col) ↔ (b.id = id) := by
          constructor
          · intro he
            have : b = block := nodupMapInj hcoords hb hbmem he
            rw [this, hbid]
          · intro he
            have : b = block := nodupMapInj hids hb hbmem (by rw [he, hbid])
            rw [this]
        rw [decide_eq_decide.mpr hiff]
        exact hcongA b hb
      have hA : alErase (aliveAfterRemoval blocks R) id
          = aliveAfterRemoval blocks (R ++ [id]) := by
        rw [aliveAfterRemoval_eq_list blocks hids R,
          alErase_filter_map (fun b => b.id) (fun b => b) id blocks _
            (by
              have := pairs_keys_nodup (fun b => b.id) (fun b => b) blocks hids
                (fun b => !(memB b.id R))
              rw [List.map_map] at this
              exact this),
          aliveAfterRemoval_eq_list blocks hids (R ++ [id]),
          List.filter_congr hcongA]
      have hI : alErase (indexAfterRemoval blocks R) (coordKey block.row block.col)
          = indexAfterRemoval blocks (R ++ [id]) := by
        rw [indexAfterRemoval_eq_list blocks hcoords R,
          alErase_filter_map (fun b => coordKey b.row b.col) (fun b => b.id)
            (coordKey block.row block.col) blocks _
            (by
              have := pairs_keys_nodup (fun b => coordKey b.row b.col) (fun b => b.id)
                blocks hcoords (fun b => !(memB b.id R))
              rw [List.map_map] at this
              exact this),
          indexAfterRemoval_eq_list blocks hcoords (R ++ [id]),
          List.filter_congr hcongI]
      dsimp only []
      rw [hA, hI, List.append_cons R id rest]
      exact ih (R ++ [id])

theorem simulateLoopO_waveChar (blocks : List ArrowBlock) (rows cols : Int)
    (hids : (blocks.map (fun b => b.id)).Nodup)
    (hcoords : (blocks.map (fun b => coordKey b.row b.col)).Nodup) :
    ∀ (fuel : Nat) (frontier R : List String) (waves : List AttemptWave) (succ : Bool),
      simulateLoopO (alFromPairs (blocks.map (fun b => (b.id, b))))
          (aliveAfterRemoval blocks R) (indexAfterRemoval blocks R)
          frontier rows cols fuel = some (waves, succ) →
      ∀ (i : Nat) (hi : i < waves.length), ∀ s ∈ (waves.get ⟨i, hi⟩).sources,
        ∃ block, block ∈ blocks ∧ block.id = s.fromId ∧
          memB block.id (R ++ removedBefore waves i) = false ∧
          memB block.id (R ++ removedBefore waves (i + 1)) = true ∧
          s.casts = block.dirs.map (fun d => castNearest block d
            (indexAfterRemoval blocks (R ++ removedBefore waves (i + 1))) rows cols) := by
  intro fuel
  induction fuel with
  | zero => intro frontier R waves succ h; rw [simulateLoopO] at h; cases h
  | succ fuel ih =>
    intro frontier R waves succ h
    rw [simulateLoopO] at h
    by_cases hfe : frontier.isEmpty
    · rw [if_pos hfe] at h
      have hw : waves = [] := (congrArg Prod.fst (Option.some.inj h)).symm
      subst hw
      intro i hi
      exact absurd hi (Nat.not_lt_zero i)
    · rw [if_neg hfe] at h
      cases hcur : frontier.filter (fun id => alHas (aliveAfterRemoval blocks R) id) with
      | nil =>
        rw [hcur] at h
        simp only [List.isEmpty_nil, if_true] at h
        have hw : waves = [] := (congrArg Prod.fst (Option.some.inj h)).symm
        subst hw
        intro i hi
        exact absurd hi (Nat.not_lt_zero i)
      | cons id0 restIds =>
        rw [hcur] at h
        simp only [List.isEmpty_cons, Bool.false_eq_true, if_false] at h
        rw [removeFold_char blocks hids hcoords (id0 :: restIds) R] at h
        dsimp only [] at h
        obtain ⟨rest0, hrec, hmapped⟩ := Option.map_eq_some'.mp h
        obtain ⟨waves2, succ2⟩ := rest0
        dsimp only [] at hmapped
        cases hmapped
        have hcurmem : ∀ id ∈ (id0 :: restIds), ∃ block, block ∈ blocks ∧ block.id = id ∧
            memB block.id R = false := by
          intro id hidm
          have hfm : id ∈ frontier.filter
              (fun id => alHas (aliveAfterRemoval blocks R) id) := by
            rw [hcur]
            exact hidm
          have hhas := (List.mem_filter.mp hfm).2
          rw [alHas, Option.isSome_iff_exists] at hhas
          obtain ⟨b0, hb0⟩ := hhas
          obtain ⟨hm, hbid, hbR⟩ := alGet_aliveAfterRemoval hids R id b0 hb0
          exact ⟨b0, hm, hbid, hbR⟩
        have hall : ∀ id ∈ (id0 :: restIds),
            ((alGet (alFromPairs (blocks.map (fun b => (b.id, b)))) id).map
              (fun block => (⟨id, block.dirs.map
                (fun d => castNearest block d
                  (indexAfterRemoval blocks (R ++ (id0 :: restIds))) rows cols)⟩ :
                    WaveSource))).isSome = true := by
          intro id hidm
          obtain ⟨b0, hm, hbid, _⟩ := hcurmem id hidm
          rw [isSome_omap]
          have := alGet_layout_of hids b0 hm
          rw [hbid] at this
          rw [this]
          rfl
        have hS : (List.filterMap
            (fun id => (alGet (alFromPairs (blocks.map (fun b => (b.id, b)))) id).map
              (fun block => (⟨id, block.dirs.map
                (fun d => castNearest block d
                  (indexAfterRemoval blocks (R ++ (id0 :: restIds))) rows cols)⟩ :
                    WaveSource)))
            (id0 :: restIds)).map (fun s => s.fromId) = id0 :: restIds := by
          apply filterMap_map_fromId _ _ ?_ _ hall
          intro id a hFa
          cases hg : alGet (alFromPairs (blocks.map (fun b => (b.id, b)))) id with
          | none => rw [hg] at hFa; cases hFa
          | some b0 =>
            rw [hg] at hFa
            rw [Option.map_some'] at hFa
            rw [← Option.some.inj hFa]
        intro i hi
        cases i with
        | zero =>
          intro s hs
          have hs2 : s ∈ List.filterMap
              (fun id => (alGet (alFromPairs (blocks.map (fun b => (b.id, b)))) id).map
                (fun block => (⟨id, block.dirs.map
                  (fun d => castNearest block d
                    (indexAfterRemoval blocks (R ++ (id0 :: restIds))) rows cols)⟩ :
                      WaveSource)))
              (id0 :: restIds) := hs
          rw [List.mem_filterMap] at hs2
          obtain ⟨id, hidm, hFs⟩ := hs2
          cases hg : alGet (alFromPairs (blocks.map (fun b => (b.id, b)))) id with
          | none => rw [hg] at hFs; cases hFs
          | some block =>
            rw [hg, Option.map_some'] at hFs
            have hsG := (Option.some.inj hFs).symm
            obtain ⟨hbm, hbid⟩ := alGet_layout_inv hids id block hg
            refine ⟨block, hbm, ?_, ?_, ?_, ?_⟩
            · rw [hsG, hbid]
            · rw [removedBefore_zero, List.append_nil, hbid]
              obtain ⟨b0, hm0, hbid0, hbR0⟩ := hcurmem id hidm
              rw [hbid0] at hbR0
              exact hbR0
            · rw [removedBefore_cons_succ, removedBefore_zero, List.append_nil]
              rw [waveSourceIds, hS, hbid, memB_append]
              have : memB id (id0 :: restIds) = true := (memB_iff_mem id _).mpr hidm
              rw [this, Bool.or_true]
            · rw [removedBefore_cons_succ, removedBefore_zero, List.append_nil]
              rw [waveSourceIds, hS, hsG]
        | succ j =>
          intro s hs
          have hj : j < waves2.length := Nat.lt_of_succ_lt_succ hi
          have hs2 : s ∈ (waves2.get ⟨j, hj⟩).sources := hs
          obtain ⟨block, hbm, hbid, hmem0, hmem1, hcasts⟩ :=
            ih _ (R ++ (id0 :: restIds)) waves2 succ hrec j hj s hs2
          refine ⟨block, hbm, hbid, ?_, ?_, ?_⟩
          · rw [removedBefore_cons_succ, waveSourceIds, hS, ← List.append_assoc]
            exact hmem0
          · rw [removedBefore_cons_succ, waveSourceIds, hS, ← List.append_assoc]
            exact hmem1
          · rw [removedBefore_cons_succ, waveSourceIds, hS, ← List.append_assoc]
            exact hcasts

theorem listGetD_get {α : Type} :
    ∀ (l : List α) (i : Nat) (d : α) (h : i < l.length), l.getD i d = l.get ⟨i, h⟩ := by
  intro l
  induction l with
  | nil => intro i d h; exact absurd h (Nat.not_lt_zero i)
  | cons a rest ih =>
    intro i d h
    cases i with
    | zero => rfl
    | succ j => exact ih j d (Nat.lt_of_succ_lt_succ h)

/-- Claim C2: on a layout with pairwise-distinct ids and cells, every wave
of `simulateAttempt` casts its rays against the coordinate index from which
the sources of that very wave (and of all earlier waves) have already been
deleted: each source of wave `i` is a layout block that was still alive
when the wave began and whose id is among the removals of waves `0..i`;
its casts are computed on `indexAfterRemoval` at exactly those removals;
no cast of the wave reports a vanished id; and a block's cell is absent
from that index precisely when its id vanished in waves `0..i`. -/
theorem claimC2 (blocks : List ArrowBlock) (startId : String) (rows cols : Int)
    (hids : (blocks.map (fun b => b.id)).Nodup)
    (hcoords : (blocks.map (fun b => coordKey b.row b.col)).Nodup)
    (i : Nat) (hi : i < (simulateAttempt blocks startId rows cols).waves.length) :
    (∀ s ∈ ((simulateAttempt blocks startId rows cols).waves.getD i
        { sources := [] }).sources,
      ∃ block, block ∈ blocks ∧ block.id = s.fromId ∧
        memB block.id
          (removedBefore (simulateAttempt blocks startId rows cols).waves i) = false ∧
        memB block.id
          (removedBefore (simulateAttempt blocks startId rows cols).waves (i + 1)) = true ∧
        s.casts = block.dirs.map (fun d => castNearest block d
          (indexAfterRemoval blocks
            (removedBefore (simulateAttempt blocks startId rows cols).waves (i + 1)))
          rows cols)) ∧
    (∀ s ∈ ((simulateAttempt blocks startId rows cols).waves.getD i
        { sources := [] }).sources,
      ∀ cast ∈ s.casts, ∀ t, cast.toId = some t →
        memB t (removedBefore (simulateAttempt blocks startId rows cols).waves (i + 1))
          = false) ∧
    (∀ b ∈ blocks,
      alGet (indexAfterRemoval blocks
          (removedBefore (simulateAttempt blocks startId rows cols).waves (i + 1)))
        (coordKey b.row b.col) = none
        ↔ memB b.id (removedBefore (simulateAttempt blocks startId rows cols).waves (i + 1))
            = true) := by
  have hfe : blocks.filter (fun b => !(memB b.id ([] : List String))) = blocks :=
    List.filter_eq_self.mpr (fun a _ => rfl)
  have hAlive : aliveAfterRemoval blocks [] = alFromPairs (blocks.map (fun b => (b.id, b))) := by
    rw [aliveAfterRemoval, hfe]
  have hIdx : indexAfterRemoval blocks [] =
      alFromPairs (blocks.map (fun b => (coordKey b.row b.col, b.id))) := by
    rw [indexAfterRemoval, hfe]
  have hsome := simulateLoopO_isSome (alFromPairs (blocks.map (fun b => (b.id, b)))) rows cols
    ((alFromPairs (blocks.map (fun b => (b.id, b)))).length + 1)
    (alFromPairs (blocks.map (fun b => (b.id, b))))
    (alFromPairs (blocks.map (fun b => (coordKey b.row b.col, b.id)))) [startId]
    (by omega)
  rw [Option.isSome_iff_exists] at hsome
  obtain ⟨res, hres⟩ := hsome
  have hsim : simulateAttempt blocks startId rows cols
      = { waves := res.1, success := res.2 } := by
    rw [simulateAttempt]
    rw [hres]
  have hloop := simulateLoopO_waveChar blocks rows cols hids hcoords
    ((alFromPairs (blocks.map (fun b => (b.id, b)))).length + 1) [startId] [] res.1 res.2
    (by rw [hAlive, hIdx]; exact hres)
  rw [hsim] at hi
  dsimp only [] at hi
  have hgetd : (simulateAttempt blocks startId rows cols).waves.getD i { sources := [] }
      = res.1.get ⟨i, hi⟩ := by
    rw [hsim]
    exact listGetD_get res.1 i { sources := [] } hi
  have hpart1 := hloop i hi
  refine ⟨?_, ?_, ?_⟩
  · intro s hs
    rw [hgetd] at hs
    obtain ⟨block, hbm, hbid, hmem0, hmem1, hcasts⟩ := hpart1 s hs
    rw [List.nil_append] at hmem0 hmem1 hcasts
    rw [hsim]
    exact ⟨block, hbm, hbid, hmem0, hmem1, hcasts⟩
  · intro s hs cast hc t ht
    rw [hgetd] at hs
    obtain ⟨block, _, _, _, _, hcasts⟩ := hpart1 s hs
    rw [List.nil_append] at hcasts
    rw [hcasts] at hc
    rw [List.mem_map] at hc
    obtain ⟨d, _, hcd⟩ := hc
    rw [← hcd] at ht
    obtain ⟨p, hp⟩ := castNearest_hit block d _ rows cols t ht
    obtain ⟨b2, _, hmb2, hbid2, _⟩ := indexAfterRemoval_some blocks hcoords _ p t hp
    rw [hsim]
    rw [← hbid2]
    exact hmb2
  · intro b hb
    rw [hsim]
    exact indexAfterRemoval_none_iff blocks hids hcoords _ b hb

/-- Witness for claim C2 at a concrete two-block layout. -/
theorem claimC2_witness :
    (∀ s ∈ ((simulateAttempt c2Blocks "a" 1 2).waves.getD 0 { sources := [] }).sources,
      ∃ block, block ∈ c2Blocks ∧ block.id = s.fromId ∧
        memB block.id (removedBefore (simulateAttempt c2Blocks "a" 1 2).waves 0) = false ∧
        memB block.id (removedBefore (simulateAttempt c2Blocks "a" 1 2).waves 1) = true ∧
        s.casts = block.dirs.map (fun d => castNearest block d
          (indexAfterRemoval c2Blocks
            (removedBefore (simulateAttempt c2Blocks "a" 1 2).waves 1)) 1 2)) ∧
    (∀ s ∈ ((simulateAttempt c2Blocks "a" 1 2).waves.getD 0 { sources := [] }).sources,
      ∀ cast ∈ s.casts, ∀ t, cast.toId = some t →
        memB t (removedBefore (simulateAttempt c2Blocks "a" 1 2).waves 1) = false) ∧
    (∀ b ∈ c2Blocks,
      alGet (indexAfterRemoval c2Blocks
          (removedBefore (simulateAttempt c2Blocks "a" 1 2).waves 1))
        (coordKey b.row b.col) = none
        ↔ memB b.id (removedBefore (simulateAttempt c2Blocks "a" 1 2).waves 1) = true) :=
  claimC2 c2Blocks "a" 1 2 (by decide) (by decide) 0 (by decide)

end ArrowDomain
